import Mathlib

/-!
Verification development for the release-portal artifact registry.

This file gives a shallow embedding, in Lean 4, of the pure core of the
repository's registry and resolution code:

* `services/extensions_registry.py` — target-platform normalization,
  `version_key`, `list_records` sorting, `pick_record`,
* `api/extensions_marketplace.py` — `_pick_latest_records`, the publish
  endpoint's control flow,
* `services/ide_registry.py` — the per-platform-directory validation of
  `_scan_fs_rows`, `list_versions`, `pick_latest_asset`,
* `api/ide.py` — the upload endpoint's control flow,
* `services/releases.py` — `normalize_os`, `normalize_arch`,
  `normalize_platform`, `_semverish_key`.

Machine integers are modelled as `Nat` (all quantities involved are
non-negative), Python strings as `String`/`List Char` (the inputs of
interest are ASCII), fallible operations as `Option`.  Filesystem and
SQLite state is passed explicitly: a registry index is a `List` of row
structures, a directory is a `List` of file entries.  External parsers
(Python's `json` module, `zipfile`) appear as already-parsed `Option`
values on the entries they produce.
-/

namespace ReleasePortal

/-! ### Python string primitives -/

/-- ASCII whitespace recognized by Python's `str.strip()`. -/
def pyWs (c : Char) : Bool :=
  c = ' ' || c = '\t' || c = '\n' || c = '\r' || c = '\x0b' || c = '\x0c'

/-- Python `s.strip()` on the character list. -/
def pyStripList (cs : List Char) : List Char :=
  ((cs.dropWhile pyWs).reverse.dropWhile pyWs).reverse

/-- Python `s.strip()`. -/
def pyStrip (s : String) : String :=
  ⟨pyStripList s.data⟩

/-- Python `s.lower()` (ASCII case folding; the repository's inputs are ASCII). -/
def pyLower (s : String) : String :=
  ⟨s.data.map Char.toLower⟩

/-- Python `s.strip().lower()`, the combination used throughout the source. -/
def pyStripLower (s : String) : String :=
  pyLower (pyStrip s)

/-- Python list/tuple comparison `a < b` on integer sequences
(lexicographic; a strict prefix is smaller). -/
def pyListLt : List Nat → List Nat → Bool
  | [], [] => false
  | [], _ :: _ => true
  | _ :: _, [] => false
  | a :: as, b :: bs =>
    if a < b then true
    else if b < a then false
    else pyListLt as bs

/-! ### `version_key` (services/extensions_registry.py:52) -/

/-- A token produced by `_SORT_RE.findall`: a maximal digit run or a maximal
ASCII-letter run (other characters are skipped). -/
inductive Tok where
  | num (run : List Char)
  | alpha (run : List Char)
deriving DecidableEq, Repr

/-- ASCII letter test, the `[A-Za-z]` class of `_SORT_RE`. -/
def isAsciiLetter (c : Char) : Bool :=
  ('A' ≤ c && c ≤ 'Z') || ('a' ≤ c && c ≤ 'z')

/-- Fuel-driven scanner equivalent to `_SORT_RE.findall` on ASCII input:
alternating maximal digit runs and letter runs, other characters skipped. -/
def tokenizeAux : Nat → List Char → List Tok
  | 0, _ => []
  | _ + 1, [] => []
  | fuel + 1, c :: cs =>
    if c.isDigit then
      Tok.num (c :: cs.takeWhile Char.isDigit) :: tokenizeAux fuel (cs.dropWhile Char.isDigit)
    else if isAsciiLetter c then
      Tok.alpha (c :: cs.takeWhile isAsciiLetter) :: tokenizeAux fuel (cs.dropWhile isAsciiLetter)
    else
      tokenizeAux fuel cs

/-- `_SORT_RE.findall(v)` of services/extensions_registry.py:49. -/
def tokenize (cs : List Char) : List Tok :=
  tokenizeAux cs.length cs

/-- Numeric value of a digit run (Python `int(p)`; leading zeros allowed). -/
def natOfDigits (cs : List Char) : Nat :=
  cs.foldl (fun acc c => acc * 10 + (c.toNat - '0'.toNat)) 0

/-- Encoding of one token inside `version_key`: digit runs map to the large
weight `10_000_000` followed by their value, letter runs to the small weight
`1` followed by per-character lower-cased ordinals. -/
def encTok : Tok → List Nat
  | Tok.num run => [10000000, natOfDigits run]
  | Tok.alpha run => 1 :: run.map (fun c => (Char.toLower c).toNat)

/-- `version_key(v)` of services/extensions_registry.py:52: tokenize, encode
each token, and append a trailing `0`. -/
def version_key (v : String) : List Nat :=
  ((tokenize v.data).map encTok).flatten ++ [0]

/-- Strict version comparison used by the extensions registry: Python's
`version_key(a) < version_key(b)`. -/
def versionLt (a b : String) : Bool :=
  pyListLt (version_key a) (version_key b)

/-! ### Target-platform normalization (services/extensions_registry.py:13,39) -/

/-- `ALLOWED_PLATFORMS` of services/extensions_registry.py:13. -/
def ALLOWED_PLATFORMS : List String :=
  ["win32-x64", "win32-ia32", "win32-arm64",
   "linux-x64", "linux-arm64", "linux-armhf",
   "alpine-x64", "alpine-arm64",
   "darwin-x64", "darwin-arm64",
   "web", "universal"]

/-- `_normalize_tp` of services/extensions_registry.py:39 (the copy in
api/extensions_marketplace.py:149 is identical): strip and lower-case, then
coerce anything empty or outside `ALLOWED_PLATFORMS` to `"universal"`. -/
def normalize_tp (tp : String) : String :=
  let v := pyStripLower tp
  if v = "" || v = "universal" then "universal"
  else if !(ALLOWED_PLATFORMS.contains v) then "universal"
  else v

/-- `_normalize_tp` applied to an optional value (`tp or ""` in Python). -/
def normalize_tp_opt : Option String → String
  | none => "universal"
  | some s => normalize_tp s

/-! ### Extension rows and the registry's sorted listing
     (services/extensions_registry.py:67,266) -/

/-- `ExtRow` of services/extensions_registry.py:67 (`dir_path` kept as the
stored string). `ns` stands for the row's `namespace` column. -/
structure ExtRow where
  ns : String
  name : String
  version : String
  target_platform : String
  dir_path : String
  published_ts : Nat
deriving DecidableEq, Repr

/-- One step of a stable descending insertion sort: insert `r` before the
first element whose key is strictly below `r`'s. `lt a b` reads "a's key is
strictly less than b's". -/
def insertDescBy (lt : α → α → Bool) (r : α) : List α → List α
  | [] => [r]
  | x :: xs => if lt r x then x :: insertDescBy lt r xs else r :: x :: xs

/-- Stable descending sort, the behavior of Python's
`list.sort(key=…, reverse=True)`: equal keys keep their original relative
order, keys otherwise descend. -/
def sortDescBy (lt : α → α → Bool) (l : List α) : List α :=
  l.foldr (insertDescBy lt) []

/-- Strict key order between two extension rows (`version_key` of their
version strings). -/
def extRowLt (a b : ExtRow) : Bool :=
  pyListLt (version_key a.version) (version_key b.version)

/-- `list_records` of services/extensions_registry.py:266 over an explicit
index: select the rows of the extension (namespace and name are stored
lower-cased, the arguments are stripped and lower-cased before matching) and
sort them by `version_key` descending (`out.sort(key=…, reverse=True)`). -/
def list_records (index : List ExtRow) (nsArg nameArg : String) : List ExtRow :=
  sortDescBy extRowLt
    (index.filter (fun r => r.ns == pyStripLower nsArg && r.name == pyStripLower nameArg))

/-- Truthiness of the `tp_req` argument (`if tp_req:` in Python). -/
def tpTruthy : Option String → Bool
  | none => false
  | some s => !(s == "")

/-- `pick_record` of services/extensions_registry.py:297: filter the sorted
records to the exact (stripped) version; none when empty; with a specific
(non-universal) normalized request prefer the exact platform, then
`"universal"`, then the first candidate; without one prefer `"universal"`,
then the first candidate. -/
def pick_record (index : List ExtRow) (nsArg nameArg versionArg : String)
    (tpReq : Option String) : Option ExtRow :=
  let recs := list_records index nsArg nameArg
  if recs.isEmpty then none
  else
    let ver := pyStrip versionArg
    let wantTp := normalize_tp_opt tpReq
    let candidates := recs.filter (fun r => r.version == ver)
    match candidates with
    | [] => none
    | c :: cs =>
      if tpTruthy tpReq && !(wantTp == "universal") then
        match (c :: cs).find? (fun r => r.target_platform == wantTp) with
        | some r => some r
        | none =>
          match (c :: cs).find? (fun r => r.target_platform == "universal") with
          | some r => some r
          | none => some c
      else
        match (c :: cs).find? (fun r => r.target_platform == "universal") with
        | some r => some r
        | none => some c

/-- The `PRIMARY KEY (namespace, name, version, target_platform)` constraint
of the `extensions` table (services/extensions_registry.py:127), restricted
to one extension's rows: version and platform determine the row. -/
def pk_unique (l : List ExtRow) : Prop :=
  ∀ r1 ∈ l, ∀ r2 ∈ l,
    r1.version = r2.version → r1.target_platform = r2.target_platform → r1 = r2

/-! ### `_pick_latest_records` (api/extensions_marketplace.py:313) -/

/-- Platform compatibility used by `_pick_latest_records`: the effective
request is `"universal"`, or the row's platform is the requested one or
`"universal"`. -/
def compatTp (tpEff : String) (r : ExtRow) : Bool :=
  tpEff == "universal" || r.target_platform == tpEff || r.target_platform == "universal"

/-- `_pick_latest_records(ns, ext, tp_eff)` of api/extensions_marketplace.py:313
over an explicit index. `stableVer` is the result of `_stable_version` (the
stable pointer resolved from the `latest` symlink tree; it never yields an
empty string). If the stable version has at least one compatible row, those
rows are returned; otherwise the platform-compatible rows of the highest
version (the head of the sorted filtered list) are returned; `none` when
nothing is compatible. -/
def pick_latest_records (index : List ExtRow) (nsArg extArg : String)
    (stableVer : Option String) (tpEff : String) : Option (List ExtRow) :=
  let recsAll := list_records index nsArg extArg
  if recsAll.isEmpty then none
  else
    let stablePick : Option (List ExtRow) :=
      match stableVer with
      | none => none
      | some sv =>
        let st := recsAll.filter (fun r => r.version == sv && compatTp tpEff r)
        if st.isEmpty then none else some st
    match stablePick with
    | some st => some st
    | none =>
      let filtered :=
        if tpEff == "universal" then recsAll
        else recsAll.filter (fun r => r.target_platform == tpEff || r.target_platform == "universal")
      match filtered with
      | [] => none
      | f :: fs => some ((f :: fs).filter (fun r => r.version == f.version))

/-! ### OS/arch/platform normalization (services/releases.py:99,113,125) -/

/-- `normalize_os` of services/releases.py:99. -/
def normalize_os (osRaw : String) : String :=
  let x := pyStripLower osRaw
  if x = "win" || x = "windows" || x = "win32" then "windows"
  else if x = "mac" || x = "macos" || x = "osx" || x = "darwin" then "darwin"
  else if x = "linux" then "linux"
  else if x = "alpine" then "alpine"
  else x

/-- `normalize_arch` of services/releases.py:113. -/
def normalize_arch (archRaw : String) : String :=
  let x := pyStripLower archRaw
  if x = "x64" || x = "x86_64" || x = "x86-64" || x = "amd64" then "x86-64"
  else if x = "arm64" || x = "aarch64" then "arm64"
  else if x = "armhf" || x = "armv7" || x = "armv7l" then "armhf"
  else x

/-- `CANONICAL_PLATFORMS` lookup of services/releases.py:69. -/
def canonical_platform : String → String → Option String
  | "windows", "x86-64" => some "win32-x64"
  | "windows", "x86_64" => some "win32-x64"
  | "windows", "amd64" => some "win32-x64"
  | "windows", "arm64" => some "win32-arm64"
  | "linux", "x86-64" => some "linux-x64"
  | "linux", "x86_64" => some "linux-x64"
  | "linux", "amd64" => some "linux-x64"
  | "linux", "arm64" => some "linux-arm64"
  | "linux", "armhf" => some "linux-armhf"
  | "alpine", "x86-64" => some "alpine-x64"
  | "alpine", "x86_64" => some "alpine-x64"
  | "alpine", "amd64" => some "alpine-x64"
  | "alpine", "arm64" => some "alpine-arm64"
  | "darwin", "x86-64" => some "darwin-x64"
  | "darwin", "x86_64" => some "darwin-x64"
  | "darwin", "amd64" => some "darwin-x64"
  | "darwin", "arm64" => some "darwin-arm64"
  | _, _ => none

/-- `normalize_platform` of services/releases.py:125: canonical table lookup
with fall back to `"<os>-<arch>"`. -/
def normalize_platform (osRaw archRaw : String) : String :=
  let osKey := normalize_os osRaw
  let archKey := normalize_arch archRaw
  match canonical_platform osKey archKey with
  | some p => p
  | none => osKey ++ "-" ++ archKey

/-! ### IDE metadata validation (services/ide_registry.py:175) -/

/-- `_safe_seg` of services/ide_registry.py:27: non-empty, not `.`/`..`, and
free of NUL and path separators. -/
def safe_seg (s : String) : Bool :=
  !(s == "" || s == "." || s == "..") &&
    s.data.all (fun c => !(c = '\x00' || c = '/' || c = '\\'))

/-- The parsed form of a metadata JSON document, as far as the scanner looks
at it.  Each field is the raw string value of the corresponding key when the
document is a JSON object holding a string there, `none` otherwise
(`_req_str`'s type test of services/ide_registry.py:45). -/
structure MetaObj where
  sub_product_name : Option String
  version : Option String
  os_type : Option String
  arch : Option String
deriving DecidableEq, Repr

/-- One regular file of a platform directory.  `parsed` is the result of
`_read_json_utf8` on it: `none` when the bytes do not decode/parse to a JSON
object (services/ide_registry.py:36). -/
structure PlatFile where
  name : String
  parsed : Option MetaObj
deriving DecidableEq, Repr

/-- `_req_str` of services/ide_registry.py:45 applied to an extracted field:
keep only a present string whose stripped form is non-empty. -/
def req_str : Option String → Option String
  | none => none
  | some v =>
    let s := pyStrip v
    if s = "" then none else some s

/-- The binary path paired with a metadata file name: Python's
`meta_p.with_suffix("")` for a name ending in `".json"` removes those five
characters, except for the bare name `".json"` whose suffix is empty. -/
def binary_name (m : String) : String :=
  if 5 < m.length then ⟨m.data.take (m.data.length - 5)⟩ else m

/-- Validation outcome for one platform directory: the row's `is_valid` flag
and `invalid_reason` code. -/
structure ScanOut where
  is_valid : Nat
  invalid_reason : Option String
deriving DecidableEq, Repr

/-- The per-platform-directory validation of `_scan_fs_rows`
(services/ide_registry.py:207-273).  `files` lists the regular files of
`ide/<project>/<ver>/<platform>/`. -/
def scan_platform_dir (project ver platform : String) (files : List PlatFile) : ScanOut :=
  let metaFiles := files.filter (fun f => List.isSuffixOf ".json".data f.name.data)
  match metaFiles with
  | [] => ⟨0, some "no_meta_json"⟩
  | _ :: _ :: _ => ⟨0, some "multiple_meta_json"⟩
  | [m] =>
    let binName := binary_name m.name
    if !(files.any (fun f => f.name == binName)) then ⟨0, some "binary_missing"⟩
    else
      match m.parsed with
      | none => ⟨0, some "meta_json_unparseable"⟩
      | some obj =>
        match req_str obj.sub_product_name, req_str obj.version,
              req_str obj.os_type, req_str obj.arch with
        | some sub, some vv, some osT, some ar =>
          if !(sub == project) then ⟨0, some "meta_project_mismatch"⟩
          else if !(vv == ver) then ⟨0, some "meta_version_mismatch"⟩
          else
            let np := normalize_platform osT ar
            if np = "" then ⟨0, some "platform_normalize_failed"⟩
            else if !(np == platform) then ⟨0, some "platform_dir_mismatch"⟩
            else ⟨1, none⟩
        | _, _, _, _ => ⟨0, some "meta_missing_required_fields"⟩

/-! ### IDE registry queries (services/ide_registry.py:312,349) -/

/-- `IdePlatformRow` of services/ide_registry.py:53 (`is_latest`/`is_valid`
are the stored SQLite integers). -/
structure IdeRow where
  project : String
  version : String
  platform : String
  meta_rel_path : String
  binary_rel_path : String
  published_ts : Nat
  is_latest : Nat
  is_valid : Nat
  invalid_reason : Option String
deriving DecidableEq, Repr

/-- POSIX `Path(rel).name`: the last non-empty, non-`.` component of a
`/`-separated relative path. -/
def path_name (rel : String) : String :=
  (((rel.splitOn "/").filter (fun s => !(s == "" || s == "."))).getLast?).getD ""

/-- `pick_latest_asset` of services/ide_registry.py:349 over an explicit
index: the first row matching the exact (stripped) project and platform with
`is_latest=1` and `is_valid=1`; no universal fallback. -/
def pick_latest_asset (index : List IdeRow) (projectArg platformArg : String) :
    Option (String × String) :=
  let proj := pyStrip projectArg
  let plat := pyStrip platformArg
  if !(safe_seg proj && safe_seg plat) then none
  else
    match index.find? (fun r =>
        r.project == proj && r.platform == plat && r.is_latest == 1 && r.is_valid == 1) with
    | none => none
    | some r => some (r.binary_rel_path, path_name r.binary_rel_path)

/-- SQLite BINARY-collation `<` on text values: bytewise comparison of the
UTF-8 encodings, which on code points is plain lexicographic order. -/
def strLtB : List Char → List Char → Bool
  | [], [] => false
  | [], _ :: _ => true
  | _ :: _, [] => false
  | a :: as, b :: bs =>
    if a.toNat < b.toNat then true
    else if b.toNat < a.toNat then false
    else strLtB as bs

/-- Key order for the `ORDER BY version DESC` of `list_versions`. -/
def verStrLt (a b : String) : Bool :=
  strLtB a.data b.data

/-- `IdeVersionRow` of services/ide_registry.py:66. -/
structure IdeVersionRow where
  version : String
  published_ts : Nat
  is_latest : Bool
deriving DecidableEq, Repr

/-- `list_versions` of services/ide_registry.py:312 over an explicit index:
group the project's `is_valid=1` rows by version, take `MAX(published_ts)`
and `MAX(is_latest)` per group, and order the groups by the version string
descending under SQLite's binary text collation. -/
def list_versions (index : List IdeRow) (projectArg : String) : List IdeVersionRow :=
  let proj := pyStrip projectArg
  if !safe_seg proj then []
  else
    let valid := index.filter (fun r => r.project == proj && r.is_valid == 1)
    let vers := sortDescBy verStrLt ((valid.map (fun r => r.version)).dedup)
    vers.map (fun v =>
      let grp := valid.filter (fun r => r.version == v)
      { version := v
        published_ts := (grp.map (fun r => r.published_ts)).foldl max 0
        is_latest := !((grp.map (fun r => r.is_latest)).foldl max 0 == 0) })

/-! ### The generic release comparator (services/releases.py:132) -/

/-- The character class `[0-9A-Za-z.-]` of `_semverish_re`. -/
def isSemChar (c : Char) : Bool :=
  c.isDigit || isAsciiLetter c || c = '.' || c = '-'

/-- Greedy parse of the numeric group `\d+(?:\.\d+)*` of `_semverish_re`,
returning the dot-separated numbers and the unconsumed remainder (fuel-driven;
`fuel ≥ length` suffices). -/
def parseNumsAux : Nat → List Char → Option (List Nat × List Char)
  | 0, _ => none
  | fuel + 1, cs =>
    let d := cs.takeWhile Char.isDigit
    if d.isEmpty then none
    else
      let rest := cs.dropWhile Char.isDigit
      match rest with
      | '.' :: c2 :: r2 =>
        if c2.isDigit then
          match parseNumsAux fuel (c2 :: r2) with
          | some (nums, rem) => some (natOfDigits d :: nums, rem)
          | none => none
        else some ([natOfDigits d], rest)
      | _ => some ([natOfDigits d], rest)

/-- Full match of `_semverish_re` (services/releases.py:132) against an
already-stripped string: optional leading `v`, dot-separated numbers, an
optional `-`‑introduced prerelease, an optional `+`‑introduced build part,
anchored at both ends.  Returns the numbers and the prerelease text. -/
def semverishMatch (s : String) : Option (List Nat × Option String) :=
  let cs := match s.data with
    | 'v' :: r => r
    | l => l
  match parseNumsAux cs.length cs with
  | none => none
  | some (nums, rem) =>
    match rem with
    | [] => some (nums, none)
    | '-' :: r1 =>
      let pr := r1.takeWhile isSemChar
      if pr.isEmpty then none
      else
        match r1.dropWhile isSemChar with
        | [] => some (nums, some ⟨pr⟩)
        | '+' :: r2 =>
          let bld := r2.takeWhile isSemChar
          if bld.isEmpty then none
          else if (r2.dropWhile isSemChar).isEmpty then some (nums, some ⟨pr⟩)
          else none
        | _ => none
    | '+' :: r2 =>
      let bld := r2.takeWhile isSemChar
      if bld.isEmpty then none
      else if (r2.dropWhile isSemChar).isEmpty then some (nums, none)
      else none
    | _ => none

/-- The value of `_semverish_key` as a comparable shape: `fallback s` stands
for the Python tuple `(0, s)`, `semver nums isFinal pre` for
`(1, nums, isFinal, pre)`. -/
inductive SemKey where
  | fallback (s : String)
  | semver (nums : List Nat) (isFinal : Nat) (pre : List String)
deriving DecidableEq, Repr

/-- `_semverish_key(v)` of services/releases.py:137 (the stripping of the
argument done by its caller-visible first line `s = v.strip()` included). -/
def semverish_key (v : String) : SemKey :=
  let s := pyStrip v
  match semverishMatch s with
  | none => SemKey.fallback (pyLower s)
  | some (nums, pre) =>
    match pre with
    | none => SemKey.semver nums 1 [""]
    | some p => SemKey.semver nums 0 ((pyLower p).splitOn ".")

/-- Python `<` on lists of strings (lexicographic over string order). -/
def pyStrListLt : List String → List String → Bool
  | [], [] => false
  | [], _ :: _ => true
  | _ :: _, [] => false
  | a :: as, b :: bs =>
    if strLtB a.data b.data then true
    else if strLtB b.data a.data then false
    else pyStrListLt as bs

/-- Python `<` between two `_semverish_key` tuples. -/
def semKeyLt : SemKey → SemKey → Bool
  | SemKey.fallback a, SemKey.fallback b => strLtB a.data b.data
  | SemKey.fallback _, SemKey.semver _ _ _ => true
  | SemKey.semver _ _ _, SemKey.fallback _ => false
  | SemKey.semver n1 f1 p1, SemKey.semver n2 f2 p2 =>
    if pyListLt n1 n2 then true
    else if pyListLt n2 n1 then false
    else if f1 < f2 then true
    else if f2 < f1 then false
    else pyStrListLt p1 p2

/-! ### Endpoint control flow
     (api/extensions_marketplace.py:521, api/ide.py:254) -/

/-- `_safe_seg` of api/extensions_marketplace.py:132: stripped, non-empty,
not `.`/`..`, and matching `[A-Za-z0-9._-]+`. -/
def mk_safe_seg (s : String) : Option String :=
  let s2 := pyStrip s
  if s2 = "" || s2 = "." || s2 = ".." then none
  else if s2.data.all (fun c => c.isAlphanum || c = '.' || c = '_' || c = '-') then some s2
  else none

/-- `_norm_ns` / `_norm_ext` of api/extensions_marketplace.py:141: a safe
segment, lower-cased; `none` when `_safe_seg` raises. -/
def norm_seg (s : String) : Option String :=
  (mk_safe_seg s).map pyLower

/-- Response of the publish endpoint, as far as its contract is concerned:
the HTTP status, whether the VSIX write to the target path went through,
whether that write replaced a previously existing artifact, and the storage
path segments `[namespace, name, version, targetPlatform]` of the stored
artifact directory. -/
structure PublishOut where
  status : Nat
  wrote : Bool
  overwrote : Bool
  storedSegs : Option (List String)
deriving DecidableEq, Repr

/-- Control flow of `publish_extension_openvsx` (api/extensions_marketplace.py:521).

* `hasFile` — a `file` part is present and non-empty;
* `fileBytes` — its bytes (checked for length `≥ 4` and the `PK` zip signature);
* `meta` — the raw `publisher`/`name`/`version` strings of the archive's
  `package.json` when present as non-empty strings (`_extract_upload_meta`
  raises otherwise, and also when `_norm_ns`/`_norm_ext` reject a segment);
* `tpForm` — the `targetPlatform` form value;
* `destExists` — whether `…/extension.vsix` already exists at the target
  path (the handler never consults this: `_atomic_write_bytes` ends in
  `tmp.replace(dst)`, which overwrites, api/extensions_marketplace.py:475);
* `writeOk` / `rebuildOk` — whether the filesystem write and the triggered
  `REGISTRY.init_and_rebuild()` succeed.

A successful write that is followed by a failing rebuild produces the
`index_rebuild_failed` 500 response while the written artifact stays in
place (api/extensions_marketplace.py:548-551). -/
def publish_extension (hasFile : Bool) (fileBytes : List Nat)
    (meta : Option (String × String × String)) (tpForm : Option String)
    (destExists writeOk rebuildOk : Bool) : PublishOut :=
  if !hasFile then ⟨400, false, false, none⟩
  else if fileBytes.isEmpty || fileBytes.length < 4 || !(fileBytes.take 2 == [0x50, 0x4B]) then
    ⟨400, false, false, none⟩
  else
    match meta with
    | none => ⟨400, false, false, none⟩
    | some (pub, nm, ver) =>
      match norm_seg pub, norm_seg nm with
      | some ns, some name =>
        if pyStrip ver = "" then ⟨400, false, false, none⟩
        else
          let tp := normalize_tp_opt tpForm
          let segs := [ns, name, pyStrip ver, tp]
          if !writeOk then ⟨500, false, false, none⟩
          else if !rebuildOk then ⟨500, true, destExists, some segs⟩
          else ⟨201, true, destExists, some segs⟩
      | _, _ => ⟨400, false, false, none⟩

/-- Response of the IDE upload endpoint: HTTP status and whether the
binary/meta pair was moved into place. -/
structure IdeUploadOut where
  status : Nat
  wrote : Bool
deriving DecidableEq, Repr

/-- Control flow of `ide_upload` (api/ide.py:254).

* `hasBinary`/`hasMeta` — both multipart files present with filenames;
* `binaryName`/`metaName` — their filenames (`metaName` must equal
  `binaryName ++ ".json"`);
* `metaParsed` — the parsed meta JSON (`none`: not UTF-8/JSON/object);
* `destBinExists`/`destMetaExists` — whether the target paths already hold
  files (conflict ⇒ 409, nothing written, api/ide.py:393-405);
* `writeOk` — the temp-dir write and renames succeed;
* `rebuildOk` — `IDE_REGISTRY.init_and_rebuild()` succeeds; its failure is
  swallowed and the endpoint still answers 200 (api/ide.py:484-489). -/
def ide_upload (hasBinary hasMeta : Bool) (binaryName metaName : String)
    (metaParsed : Option MetaObj) (destBinExists destMetaExists : Bool)
    (writeOk rebuildOk : Bool) : IdeUploadOut :=
  if !(hasBinary && hasMeta) then ⟨400, false⟩
  else if binaryName = "" || metaName = "" then ⟨400, false⟩
  else if !(metaName == binaryName ++ ".json") then ⟨400, false⟩
  else
    match metaParsed with
    | none => ⟨400, false⟩
    | some obj =>
      match req_str obj.sub_product_name, req_str obj.version,
            req_str obj.os_type, req_str obj.arch with
      | some _, some _, some _, some _ =>
        if destBinExists || destMetaExists then ⟨409, false⟩
        else if !writeOk then ⟨500, false⟩
        else ⟨200, true⟩
      | _, _, _, _ => ⟨400, false⟩

/-- Where `init_and_rebuild` can fail
(services/extensions_registry.py:112-157, services/ide_registry.py:96-173):
in the delete transaction (rolled back), in the filesystem scan (after the
delete committed), in the insert transaction (rolled back, index already
emptied), in the `CREATE INDEX IF NOT EXISTS` statements that run after the
insert transaction committed (extensions_registry.py:153-155,
ide_registry.py:168-171), or not at all. -/
inductive RebuildPhase where
  | failDelete
  | failScan
  | failInsert
  | failIndex
  | success
deriving DecidableEq, Repr

/-- Index contents after `init_and_rebuild` with old contents `old` and
scanned rows `new`, by failure phase.  The delete and the insert are two
separate committed transactions, so a failure between them leaves the index
empty, and a failure in the secondary-index statements after the insert
commit leaves the complete new row set; no failure mode mixes old and new
rows. -/
def rebuild_result (old new : List α) : RebuildPhase → List α
  | RebuildPhase.failDelete => old
  | RebuildPhase.failScan => []
  | RebuildPhase.failInsert => []
  | RebuildPhase.failIndex => new
  | RebuildPhase.success => new

end ReleasePortal

namespace ReleasePortal

theorem pyListLt_irrefl (l : List Nat) : pyListLt l l = false := by
  induction l with
  | nil => rfl
  | cons a as ih => simp [pyListLt, ih]

theorem pyListLt_trans {a b c : List Nat} (h₁ : pyListLt a b = true)
    (h₂ : pyListLt b c = true) : pyListLt a c = true := by
  induction a generalizing b c with
  | nil =>
    cases b with
    | nil => simp [pyListLt] at h₁
    | cons y ys =>
      cases c with
      | nil => simp [pyListLt] at h₂
      | cons z zs => simp [pyListLt]
  | cons x xs ih =>
    cases b with
    | nil => simp [pyListLt] at h₁
    | cons y ys =>
      cases c with
      | nil => simp [pyListLt] at h₂
      | cons z zs =>
        simp only [pyListLt] at h₁ h₂ ⊢
        split at h₁
        · -- x < y
          split at h₂
          · split
            · rfl
            · split
              · omega
              · omega
          · split at h₂
            · exact absurd h₂ (by simp)
            · -- y = z
              split
              · rfl
              · split
                · omega
                · omega
        · split at h₁
          · exact absurd h₁ (by simp)
          · -- x = y
            split at h₂
            · split
              · rfl
              · split
                · omega
                · omega
            · split at h₂
              · exact absurd h₂ (by simp)
              · -- y = z
                split
                · rfl
                · split
                  · omega
                  · exact ih h₁ h₂

theorem pyListLt_conn {a b : List Nat} (h₁ : pyListLt a b = false)
    (h₂ : pyListLt b a = false) : a = b := by
  induction a generalizing b with
  | nil =>
    cases b with
    | nil => rfl
    | cons y ys => simp [pyListLt] at h₁
  | cons x xs ih =>
    cases b with
    | nil => simp [pyListLt] at h₂
    | cons y ys =>
      simp only [pyListLt] at h₁ h₂
      rcases Nat.lt_trichotomy x y with h | h | h
      · rw [if_pos h] at h₁
        exact absurd h₁ (by simp)
      · subst h
        simp only [Nat.lt_irrefl, if_false] at h₁ h₂
        rw [ih h₁ h₂]
      · rw [if_pos h] at h₂
        exact absurd h₂ (by simp)

theorem pyListLt_false_trans {a b c : List Nat} (h₁ : pyListLt a b = false)
    (h₂ : pyListLt b c = false) : pyListLt a c = false := by
  by_contra h
  have hac : pyListLt a c = true := by
    cases hx : pyListLt a c with
    | false => exact absurd hx h
    | true => rfl
  rcases hcb : pyListLt c b with _ | _
  · have := pyListLt_conn h₂ hcb
    subst this
    exact absurd hac (by simp [h₁])
  · have := pyListLt_trans hac hcb
    exact absurd this (by simp [h₁])

theorem pyListLt_append (p xs ys : List Nat) :
    pyListLt (p ++ xs) (p ++ ys) = pyListLt xs ys := by
  induction p with
  | nil => rfl
  | cons a as ih => simp [pyListLt, ih]

theorem pyListLt_asymm {a b : List Nat} (h : pyListLt a b = true) :
    pyListLt b a = false := by
  by_contra hc
  have hba : pyListLt b a = true := by
    cases hx : pyListLt b a with
    | false => exact absurd hx hc
    | true => rfl
  have := pyListLt_trans h hba
  rw [pyListLt_irrefl] at this
  exact absurd this (by simp)

/-! ### Lemmas on the stable descending insertion sort -/

theorem mem_insertDescBy (lt : α → α → Bool) (r : α) (l : List α) (a : α) :
    a ∈ insertDescBy lt r l ↔ a = r ∨ a ∈ l := by
  induction l with
  | nil => simp [insertDescBy]
  | cons x xs ih =>
    cases hrx : lt r x with
    | true =>
      simp only [insertDescBy, hrx, if_pos, List.mem_cons, ih]
      tauto
    | false =>
      simp only [insertDescBy, hrx, Bool.false_eq_true, if_false, List.mem_cons]

theorem mem_sortDescBy (lt : α → α → Bool) (l : List α) (a : α) :
    a ∈ sortDescBy lt l ↔ a ∈ l := by
  induction l with
  | nil => simp [sortDescBy]
  | cons x xs ih =>
    show a ∈ insertDescBy lt x (sortDescBy lt xs) ↔ _
    rw [mem_insertDescBy, ih]
    simp

theorem perm_insertDescBy (lt : α → α → Bool) (r : α) (l : List α) :
    List.Perm (insertDescBy lt r l) (r :: l) := by
  induction l with
  | nil => simp [insertDescBy]
  | cons x xs ih =>
    cases hrx : lt r x with
    | true =>
      simp only [insertDescBy, hrx, if_pos]
      exact (ih.cons x).trans (List.Perm.swap r x xs)
    | false =>
      simp only [insertDescBy, hrx, Bool.false_eq_true, if_false]
      exact List.Perm.refl _

theorem perm_sortDescBy (lt : α → α → Bool) (l : List α) :
    List.Perm (sortDescBy lt l) l := by
  induction l with
  | nil => exact List.Perm.refl _
  | cons x xs ih =>
    exact (perm_insertDescBy lt x (sortDescBy lt xs)).trans (ih.cons x)

theorem pairwise_insertDescBy (lt : α → α → Bool)
    (hasymm : ∀ a b, lt a b = true → lt b a = false)
    (htrans : ∀ a b c, lt a b = false → lt b c = false → lt a c = false)
    (r : α) (l : List α) (hl : l.Pairwise (fun a b => lt a b = false)) :
    (insertDescBy lt r l).Pairwise (fun a b => lt a b = false) := by
  induction l with
  | nil => simp [insertDescBy]
  | cons x xs ih =>
    rcases (List.pairwise_cons.mp hl) with ⟨hx, hxs⟩
    cases hrx : lt r x with
    | true =>
      simp only [insertDescBy, hrx, if_pos]
      refine List.pairwise_cons.mpr ⟨?_, ih hxs⟩
      intro y hy
      rcases (mem_insertDescBy lt r xs y).mp hy with hyr | hyx
      · subst hyr
        exact hasymm _ _ hrx
      · exact hx y hyx
    | false =>
      simp only [insertDescBy, hrx, Bool.false_eq_true, if_false]
      refine List.pairwise_cons.mpr ⟨?_, hl⟩
      intro y hy
      rcases List.mem_cons.mp hy with hyx | hyxs
      · subst hyx
        exact hrx
      · exact htrans r x y hrx (hx y hyxs)

theorem pairwise_sortDescBy (lt : α → α → Bool)
    (hasymm : ∀ a b, lt a b = true → lt b a = false)
    (htrans : ∀ a b c, lt a b = false → lt b c = false → lt a c = false)
    (l : List α) :
    (sortDescBy lt l).Pairwise (fun a b => lt a b = false) := by
  induction l with
  | nil => simp [sortDescBy]
  | cons x xs ih => exact pairwise_insertDescBy lt hasymm htrans x (sortDescBy lt xs) ih

theorem extRowLt_asymm (a b : ExtRow) (h : extRowLt a b = true) : extRowLt b a = false :=
  pyListLt_asymm h

theorem extRowLt_false_trans (a b c : ExtRow) (h₁ : extRowLt a b = false)
    (h₂ : extRowLt b c = false) : extRowLt a c = false :=
  pyListLt_false_trans h₁ h₂

end ReleasePortal

namespace ReleasePortal

theorem verKey_num_gt_alpha {a b : String} {ts r1 r2 : List Tok} {d w : List Char}
    (ha : tokenize a.data = ts ++ Tok.num d :: r1)
    (hb : tokenize b.data = ts ++ Tok.alpha w :: r2) :
    pyListLt (version_key b) (version_key a) = true := by
  unfold version_key
  rw [ha, hb]
  rw [List.map_append, List.map_append, List.flatten_append, List.flatten_append,
    List.append_assoc, List.append_assoc, pyListLt_append]
  simp only [List.map_cons, List.flatten_cons, encTok]
  rw [List.cons_append, List.cons_append]
  simp [pyListLt]

end ReleasePortal

namespace ReleasePortal

/-- C8: comparison of `version_key` values is a strict total preorder
(irreflexive, transitive, and connected up to key equality), numeric-aware
rather than lexical: `2.0.0` outranks `1.9.9`, `10.0.0` outranks `9.0.0`,
and at any token position (after any common run of tokens) a numeric token
outranks any alphabetic token. -/
theorem version_key_order_C8 :
    (∀ a : String, pyListLt (version_key a) (version_key a) = false)
    ∧ (∀ a b c : String, pyListLt (version_key a) (version_key b) = true →
        pyListLt (version_key b) (version_key c) = true →
        pyListLt (version_key a) (version_key c) = true)
    ∧ (∀ a b : String, pyListLt (version_key a) (version_key b) = false →
        pyListLt (version_key b) (version_key a) = false →
        version_key a = version_key b)
    ∧ pyListLt (version_key "1.9.9") (version_key "2.0.0") = true
    ∧ pyListLt (version_key "9.0.0") (version_key "10.0.0") = true
    ∧ (∀ (a b : String) (ts r1 r2 : List Tok) (d w : List Char),
        tokenize a.data = ts ++ Tok.num d :: r1 →
        tokenize b.data = ts ++ Tok.alpha w :: r2 →
        pyListLt (version_key b) (version_key a) = true) := by
  refine ⟨fun a => pyListLt_irrefl _, fun a b c => pyListLt_trans,
    fun a b => pyListLt_conn, by decide, by decide, ?_⟩
  intro a b ts r1 r2 d w ha hb
  exact verKey_num_gt_alpha ha hb

/-- Closed instance of `version_key_order_C8`: transitivity at concrete
versions and the numeric-over-alphabetic rule at `"1"` versus `"a"`. -/
theorem version_key_order_C8_witness :
    pyListLt (version_key "1.0.0") (version_key "3.0.0") = true
    ∧ pyListLt (version_key "a") (version_key "1") = true := by
  constructor
  · exact version_key_order_C8.2.1 "1.0.0" "2.0.0" "3.0.0" (by decide) (by decide)
  · exact version_key_order_C8.2.2.2.2.2 "1" "a" [] [] [] ['1'] ['a']
      (by decide) (by decide)

/-- C9: under the release listing's semver-ish fallback key, any version
carrying a prerelease suffix sorts strictly below the plain numeric version
with the same numbers, and this is not shared by the extensions registry's
`version_key`, which ranks `1.2.0-rc1` above `1.2.0`. -/
theorem semverish_prerelease_C9 :
    (∀ (s t : String) (nums : List Nat) (p : String),
        semverishMatch (pyStrip s) = some (nums, some p) →
        semverishMatch (pyStrip t) = some (nums, none) →
        semKeyLt (semverish_key s) (semverish_key t) = true)
    ∧ semKeyLt (semverish_key "1.2.0-rc1") (semverish_key "1.2.0") = true
    ∧ pyListLt (version_key "1.2.0") (version_key "1.2.0-rc1") = true := by
  refine ⟨?_, by decide, by decide⟩
  intro s t nums p hs ht
  simp only [semverish_key, hs, ht]
  simp [semKeyLt, pyListLt_irrefl]

/-- Closed instance of `semverish_prerelease_C9` at `"1.2.0-rc1"` and
`"1.2.0"`. -/
theorem semverish_prerelease_C9_witness :
    semKeyLt (semverish_key "1.2.0-rc1") (semverish_key "1.2.0") = true :=
  semverish_prerelease_C9.1 "1.2.0-rc1" "1.2.0" [1, 2, 0] "rc1" (by decide) (by decide)

/-- C2: `pick_latest_asset` serves a binary only from a row whose platform
equals the requested platform exactly with `is_valid=1` and `is_latest=1`;
with no such row it returns none — no universal or cross-platform fallback,
as the concrete two-row index shows. -/
theorem pick_latest_asset_exact_platform_C2 :
    (∀ (index : List IdeRow) (proj plat : String) (p : String × String),
        pick_latest_asset index proj plat = some p →
        ∃ r ∈ index, r.project = pyStrip proj ∧ r.platform = pyStrip plat ∧
          r.is_latest = 1 ∧ r.is_valid = 1 ∧
          p = (r.binary_rel_path, path_name r.binary_rel_path))
    ∧ (∀ (index : List IdeRow) (proj plat : String),
        (∀ r ∈ index, ¬(r.project = pyStrip proj ∧ r.platform = pyStrip plat ∧
          r.is_latest = 1 ∧ r.is_valid = 1)) →
        pick_latest_asset index proj plat = none)
    ∧ pick_latest_asset
        [{ project := "proj", version := "2.0.0", platform := "win32-x64",
           meta_rel_path := "ide/proj/2.0.0/win32-x64/ide.exe.json",
           binary_rel_path := "ide/proj/2.0.0/win32-x64/ide.exe",
           published_ts := 5, is_latest := 1, is_valid := 1, invalid_reason := none },
         { project := "proj", version := "1.0.0", platform := "universal",
           meta_rel_path := "ide/proj/1.0.0/universal/ide.bin.json",
           binary_rel_path := "ide/proj/1.0.0/universal/ide.bin",
           published_ts := 4, is_latest := 0, is_valid := 1, invalid_reason := none }]
        "proj" "linux-x64" = none := by
  refine ⟨?_, ?_, by decide⟩
  · intro index proj plat p hp
    simp only [pick_latest_asset] at hp
    by_cases hseg : (safe_seg (pyStrip proj) && safe_seg (pyStrip plat)) = true
    · rw [hseg] at hp
      simp only [Bool.not_true, Bool.false_eq_true, if_false] at hp
      cases hfind : index.find? (fun r =>
          r.project == pyStrip proj && r.platform == pyStrip plat &&
          r.is_latest == 1 && r.is_valid == 1) with
      | none => rw [hfind] at hp; exact absurd hp (by simp)
      | some r =>
        rw [hfind] at hp
        have hmem := List.mem_of_find?_eq_some hfind
        have hpred := List.find?_some hfind
        simp only [Bool.and_eq_true, beq_iff_eq] at hpred
        refine ⟨r, hmem, hpred.1.1.1, hpred.1.1.2, hpred.1.2, hpred.2, ?_⟩
        simpa using hp.symm
    · rw [Bool.not_eq_true] at hseg
      rw [hseg] at hp
      exact absurd hp (by simp)
  · intro index proj plat hnone
    simp only [pick_latest_asset]
    by_cases hseg : (safe_seg (pyStrip proj) && safe_seg (pyStrip plat)) = true
    · rw [hseg]
      simp only [Bool.not_true, Bool.false_eq_true, if_false]
      have hfind : index.find? (fun r =>
          r.project == pyStrip proj && r.platform == pyStrip plat &&
          r.is_latest == 1 && r.is_valid == 1) = none := by
        rw [List.find?_eq_none]
        intro r hr
        have := hnone r hr
        simp only [Bool.and_eq_true, beq_iff_eq]
        tauto
      rw [hfind]
    · rw [Bool.not_eq_true] at hseg
      rw [hseg]
      rfl

/-- Closed instance of `pick_latest_asset_exact_platform_C2`: an index whose
only latest row is another platform yields none. -/
theorem pick_latest_asset_exact_platform_C2_witness :
    pick_latest_asset
      [{ project := "proj", version := "2.0.0", platform := "win32-x64",
         meta_rel_path := "m", binary_rel_path := "ide/proj/2.0.0/win32-x64/ide.exe",
         published_ts := 5, is_latest := 1, is_valid := 1, invalid_reason := none }]
      "proj" "linux-x64" = none := by
  refine pick_latest_asset_exact_platform_C2.2.1 _ "proj" "linux-x64" ?_
  intro r hr
  simp only [List.mem_singleton] at hr
  subst hr
  decide

end ReleasePortal

namespace ReleasePortal

theorem ide_upload_valid_inputs (bn : String) (obj : MetaObj) (s1 s2 s3 s4 : String)
    (destBin destMeta writeOk rebuildOk : Bool)
    (hbn : bn ≠ "")
    (h1 : req_str obj.sub_product_name = some s1)
    (h2 : req_str obj.version = some s2)
    (h3 : req_str obj.os_type = some s3)
    (h4 : req_str obj.arch = some s4) :
    ide_upload true true bn (bn ++ ".json") (some obj) destBin destMeta writeOk rebuildOk
      = if destBin || destMeta then ⟨409, false⟩
        else if !writeOk then ⟨500, false⟩
        else ⟨200, true⟩ := by
  have hm : (bn ++ ".json") ≠ "" := by
    intro h
    have hd : bn.data ++ ".json".data = ([] : List Char) := by
      have := congrArg String.data h
      simpa [String.data_append] using this
    have hjs := (List.append_eq_nil.mp hd).2
    exact absurd hjs (by decide)
  simp only [ide_upload, Bool.and_self, Bool.not_true, Bool.false_eq_true, if_false,
    hbn, hm, or_self, beq_self_eq_true, h1, h2, h3, h4]
  rfl

theorem publish_valid_inputs (pub nm ver : String) (tpForm : Option String)
    (nsv namev : String) (destExists writeOk rebuildOk : Bool)
    (hns : norm_seg pub = some nsv)
    (hname : norm_seg nm = some namev)
    (hver : pyStrip ver ≠ "") :
    publish_extension true [0x50, 0x4B, 3, 4] (some (pub, nm, ver)) tpForm
        destExists writeOk rebuildOk
      = if !writeOk then ⟨500, false, false, none⟩
        else if !rebuildOk then
          ⟨500, true, destExists, some [nsv, namev, pyStrip ver, normalize_tp_opt tpForm]⟩
        else ⟨201, true, destExists, some [nsv, namev, pyStrip ver, normalize_tp_opt tpForm]⟩ := by
  simp only [publish_extension, hns, hname, hver, if_false]
  norm_num

end ReleasePortal

namespace ReleasePortal

/-- C4 counterexample: the extension publish endpoint aborts with a 500
`index_rebuild_failed` response when the triggered rebuild fails after a
successful write (the artifact remains on disk), so the operation does not
report success. -/
theorem publish_rebuild_failure_aborts_C4_cex :
    publish_extension true [0x50, 0x4B, 3, 4] (some ("Acme", "Tool", "1.0.0"))
        (some "universal") false true false
      = ⟨500, true, false, some ["acme", "tool", "1.0.0", "universal"]⟩
    ∧ (500 : Nat) ≠ 201 := by
  exact ⟨by decide, by decide⟩

/-- C4 amended: only the IDE upload treats the triggered rebuild as
best-effort — after a successful write it reports success regardless of the
rebuild outcome; the extension publish reports a 500 on rebuild failure
though its completed write is retained; and a failed rebuild leaves the
index with its old contents, empty (the delete and the reinsert are separate
transactions), or the complete freshly scanned row set (a failure in the
secondary-index statements after the insert commit) — never a corrupted mix
of old and new rows — and never touches the written artifact. -/
theorem rebuild_best_effort_amended_C4 :
    (∀ (bn : String) (obj : MetaObj) (s1 s2 s3 s4 : String) (rebuildOk : Bool),
        bn ≠ "" →
        req_str obj.sub_product_name = some s1 →
        req_str obj.version = some s2 →
        req_str obj.os_type = some s3 →
        req_str obj.arch = some s4 →
        ide_upload true true bn (bn ++ ".json") (some obj) false false true rebuildOk
          = ⟨200, true⟩)
    ∧ (∀ (pub nm ver : String) (tpForm : Option String) (nsv namev : String)
          (destExists : Bool),
        norm_seg pub = some nsv →
        norm_seg nm = some namev →
        pyStrip ver ≠ "" →
        publish_extension true [0x50, 0x4B, 3, 4] (some (pub, nm, ver)) tpForm
            destExists true false
          = ⟨500, true, destExists, some [nsv, namev, pyStrip ver, normalize_tp_opt tpForm]⟩)
    ∧ (∀ (old new : List ExtRow) (ph : RebuildPhase), ph ≠ RebuildPhase.success →
        rebuild_result old new ph = old ∨ rebuild_result old new ph = [] ∨
          rebuild_result old new ph = new) := by
  refine ⟨?_, ?_, ?_⟩
  · intro bn obj s1 s2 s3 s4 rebuildOk hbn h1 h2 h3 h4
    rw [ide_upload_valid_inputs bn obj s1 s2 s3 s4 false false true rebuildOk hbn h1 h2 h3 h4]
    rfl
  · intro pub nm ver tpForm nsv namev destExists hns hname hver
    rw [publish_valid_inputs pub nm ver tpForm nsv namev destExists true false hns hname hver]
    rfl
  · intro old new ph hph
    cases ph with
    | failDelete => exact Or.inl rfl
    | failScan => exact Or.inr (Or.inl rfl)
    | failInsert => exact Or.inr (Or.inl rfl)
    | failIndex => exact Or.inr (Or.inr rfl)
    | success => exact absurd rfl hph

/-- Closed instance of `rebuild_best_effort_amended_C4`: a concrete IDE
upload whose rebuild fails still answers 200. -/
theorem rebuild_best_effort_amended_C4_witness :
    ide_upload true true "ide1.bin" ("ide1.bin" ++ ".json")
        (some ⟨some "ide1", some "1.0.0", some "linux", some "x86-64"⟩)
        false false true false
      = ⟨200, true⟩ := by
  exact rebuild_best_effort_amended_C4.1 "ide1.bin"
    ⟨some "ide1", some "1.0.0", some "linux", some "x86-64"⟩
    "ide1" "1.0.0" "linux" "x86-64" false (by decide) (by decide) (by decide)
    (by decide) (by decide)

/-- C7 counterexample: the extension publish endpoint performs no conflict
check — with the target artifact already present it overwrites the file
atomically and reports 201, instead of refusing with 409. -/
theorem publish_overwrites_conflict_C7_cex :
    publish_extension true [0x50, 0x4B, 3, 4] (some ("acme", "tool", "1.0.0"))
        (some "universal") true true true
      = ⟨201, true, true, some ["acme", "tool", "1.0.0", "universal"]⟩
    ∧ (201 : Nat) ≠ 409 := by
  exact ⟨by decide, by decide⟩

/-- C7 amended: the IDE upload endpoint refuses an upload whose target
binary or metadata path already holds a file with a 409 conflict and writes
nothing; the extension publish endpoint has no conflict check and instead
atomically replaces an existing artifact, reporting 201. -/
theorem conflict_handling_amended_C7 :
    (∀ (bn : String) (obj : MetaObj) (s1 s2 s3 s4 : String)
        (destBin destMeta writeOk rebuildOk : Bool),
        bn ≠ "" →
        req_str obj.sub_product_name = some s1 →
        req_str obj.version = some s2 →
        req_str obj.os_type = some s3 →
        req_str obj.arch = some s4 →
        (destBin || destMeta) = true →
        ide_upload true true bn (bn ++ ".json") (some obj) destBin destMeta writeOk rebuildOk
          = ⟨409, false⟩)
    ∧ (∀ (pub nm ver : String) (tpForm : Option String) (nsv namev : String),
        norm_seg pub = some nsv →
        norm_seg nm = some namev →
        pyStrip ver ≠ "" →
        publish_extension true [0x50, 0x4B, 3, 4] (some (pub, nm, ver)) tpForm
            true true true
          = ⟨201, true, true, some [nsv, namev, pyStrip ver, normalize_tp_opt tpForm]⟩) := by
  constructor
  · intro bn obj s1 s2 s3 s4 destBin destMeta writeOk rebuildOk hbn h1 h2 h3 h4 hdest
    rw [ide_upload_valid_inputs bn obj s1 s2 s3 s4 destBin destMeta writeOk rebuildOk
      hbn h1 h2 h3 h4, if_pos hdest]
  · intro pub nm ver tpForm nsv namev hns hname hver
    rw [publish_valid_inputs pub nm ver tpForm nsv namev true true true hns hname hver]
    rfl

/-- Closed instance of `conflict_handling_amended_C7`: a concrete IDE upload
against an occupied binary path answers 409 and writes nothing. -/
theorem conflict_handling_amended_C7_witness :
    ide_upload true true "ide1.bin" ("ide1.bin" ++ ".json")
        (some ⟨some "ide1", some "1.0.0", some "linux", some "x86-64"⟩)
        true false true true
      = ⟨409, false⟩ := by
  exact conflict_handling_amended_C7.1 "ide1.bin"
    ⟨some "ide1", some "1.0.0", some "linux", some "x86-64"⟩
    "ide1" "1.0.0" "linux" "x86-64" true false true true (by decide) (by decide)
    (by decide) (by decide) (by decide) (by decide)

/-- C10: every platform parameter of the extensions interfaces is coerced
through `_normalize_tp` — a missing, empty, or unrecognized value maps to
`"universal"` — and a publish whose `targetPlatform` form value lies outside
the allowed enumeration (such as `"linux-riscv64"`) does not fail: it stores
and indexes the artifact under the `"universal"` platform segment. -/
theorem normalize_tp_universal_C10 :
    (∀ s : String, ALLOWED_PLATFORMS.contains (pyStripLower s) = false →
        normalize_tp s = "universal")
    ∧ (∀ s : String, pyStrip s = "" → normalize_tp s = "universal")
    ∧ normalize_tp_opt none = "universal"
    ∧ normalize_tp "linux-riscv64" = "universal"
    ∧ (∀ (pub nm ver : String) (nsv namev : String) (destExists : Bool),
        norm_seg pub = some nsv →
        norm_seg nm = some namev →
        pyStrip ver ≠ "" →
        publish_extension true [0x50, 0x4B, 3, 4] (some (pub, nm, ver))
            (some "linux-riscv64") destExists true true
          = ⟨201, true, destExists, some [nsv, namev, pyStrip ver, "universal"]⟩) := by
  refine ⟨?_, ?_, rfl, by decide, ?_⟩
  · intro s h
    simp only [normalize_tp]
    split
    · rfl
    · rw [h]
      rfl
  · intro s h
    simp only [normalize_tp, pyStripLower, h]
    rfl
  · intro pub nm ver nsv namev destExists hns hname hver
    rw [publish_valid_inputs pub nm ver (some "linux-riscv64") nsv namev destExists true true
      hns hname hver]
    rfl

/-- Closed instance of `normalize_tp_universal_C10`: a concrete publish with
`targetPlatform=linux-riscv64` succeeds and stores under `universal`. -/
theorem normalize_tp_universal_C10_witness :
    publish_extension true [0x50, 0x4B, 3, 4] (some ("acme", "tool", "1.0.0"))
        (some "linux-riscv64") false true true
      = ⟨201, true, false, some ["acme", "tool", "1.0.0", "universal"]⟩ := by
  exact normalize_tp_universal_C10.2.2.2.2 "acme" "tool" "1.0.0" "acme" "tool" false
    (by decide) (by decide) (by decide)

end ReleasePortal

namespace ReleasePortal

theorem isEmpty_false_of_mem {l : List α} {a : α} (h : a ∈ l) : l.isEmpty = false := by
  cases l with
  | nil => cases h
  | cons x xs => rfl

theorem pick_record_branch (index : List ExtRow) (nsA nmA verA : String)
    (tpReq : Option String) (c : ExtRow) (cs : List ExtRow)
    (hcc : (list_records index nsA nmA).filter (fun r => r.version == pyStrip verA) = c :: cs) :
    pick_record index nsA nmA verA tpReq =
      if tpTruthy tpReq && !(normalize_tp_opt tpReq == "universal") then
        match (c :: cs).find? (fun r => r.target_platform == normalize_tp_opt tpReq) with
        | some r => some r
        | none =>
          match (c :: cs).find? (fun r => r.target_platform == "universal") with
          | some r => some r
          | none => some c
      else
        match (c :: cs).find? (fun r => r.target_platform == "universal") with
        | some r => some r
        | none => some c := by
  have hne : (list_records index nsA nmA).isEmpty = false := by
    cases hl : list_records index nsA nmA with
    | nil => rw [hl] at hcc; simp at hcc
    | cons a as => rfl
  simp only [pick_record, hne, Bool.false_eq_true, if_false, hcc]

theorem find?_unique_version {l : List ExtRow} {r r' : ExtRow} {p : ExtRow → Bool}
    (huniq : pk_unique l) (hsub : ∀ x ∈ l, p x = true → x.target_platform = r.target_platform)
    (hr : r ∈ l) (hrver : ∀ x ∈ l, x.version = r.version)
    (hfind : l.find? p = some r') : r' = r := by
  have hmem := List.mem_of_find?_eq_some hfind
  have hpred := List.find?_some hfind
  exact huniq r' hmem r hr (by rw [hrver r' hmem, hrver r hr]) (hsub r' hmem hpred)

end ReleasePortal

namespace ReleasePortal

/-- C5: `pick_record` restricts to the exact (stripped) version and returns
none when that set is empty; with a specific (non-universal) normalized
platform request it returns the record matching that platform exactly if one
exists, else the `universal` record if one exists, else the first remaining
candidate; with no platform preference it returns the `universal` record if
one exists, else the first candidate.  In particular, with no preference and
same-version rows `{universal, linux-x64}` it returns the universal row. -/
theorem pick_record_selection_C5 :
    (∀ (index : List ExtRow) (nsA nmA verA : String) (tpReq : Option String),
        (∀ r ∈ list_records index nsA nmA, ¬ r.version = pyStrip verA) →
        pick_record index nsA nmA verA tpReq = none)
    ∧ (∀ (index : List ExtRow) (nsA nmA verA : String) (tpReq : Option String) (r : ExtRow),
        tpTruthy tpReq = true → normalize_tp_opt tpReq ≠ "universal" →
        pk_unique (list_records index nsA nmA) →
        r ∈ list_records index nsA nmA → r.version = pyStrip verA →
        r.target_platform = normalize_tp_opt tpReq →
        pick_record index nsA nmA verA tpReq = some r)
    ∧ (∀ (index : List ExtRow) (nsA nmA verA : String) (tpReq : Option String) (r : ExtRow),
        tpTruthy tpReq = true → normalize_tp_opt tpReq ≠ "universal" →
        pk_unique (list_records index nsA nmA) →
        (∀ x ∈ list_records index nsA nmA, x.version = pyStrip verA →
          x.target_platform ≠ normalize_tp_opt tpReq) →
        r ∈ list_records index nsA nmA → r.version = pyStrip verA →
        r.target_platform = "universal" →
        pick_record index nsA nmA verA tpReq = some r)
    ∧ (∀ (index : List ExtRow) (nsA nmA verA : String) (tpReq : Option String)
          (c : ExtRow) (cs : List ExtRow),
        tpTruthy tpReq = true → normalize_tp_opt tpReq ≠ "universal" →
        (list_records index nsA nmA).filter (fun r => r.version == pyStrip verA) = c :: cs →
        (∀ x ∈ c :: cs, x.target_platform ≠ normalize_tp_opt tpReq ∧
          x.target_platform ≠ "universal") →
        pick_record index nsA nmA verA tpReq = some c)
    ∧ (∀ (index : List ExtRow) (nsA nmA verA : String) (tpReq : Option String) (r : ExtRow),
        (tpTruthy tpReq = false ∨ normalize_tp_opt tpReq = "universal") →
        pk_unique (list_records index nsA nmA) →
        r ∈ list_records index nsA nmA → r.version = pyStrip verA →
        r.target_platform = "universal" →
        pick_record index nsA nmA verA tpReq = some r)
    ∧ (∀ (index : List ExtRow) (nsA nmA verA : String) (tpReq : Option String)
          (c : ExtRow) (cs : List ExtRow),
        (tpTruthy tpReq = false ∨ normalize_tp_opt tpReq = "universal") →
        (list_records index nsA nmA).filter (fun r => r.version == pyStrip verA) = c :: cs →
        (∀ x ∈ c :: cs, x.target_platform ≠ "universal") →
        pick_record index nsA nmA verA tpReq = some c)
    ∧ pick_record
        [{ ns := "acme", name := "tool", version := "1.0.0", target_platform := "universal",
           dir_path := "d1", published_ts := 1 },
         { ns := "acme", name := "tool", version := "1.0.0", target_platform := "linux-x64",
           dir_path := "d2", published_ts := 2 }]
        "acme" "tool" "1.0.0" none
      = some { ns := "acme", name := "tool", version := "1.0.0",
               target_platform := "universal", dir_path := "d1", published_ts := 1 } := by
  have hverOf : ∀ (l : List ExtRow) (v : String) (x : ExtRow),
      x ∈ l.filter (fun r => r.version == v) → x.version = v := by
    intro l v x hx
    have := (List.mem_filter.mp hx).2
    simpa using this
  refine ⟨?_, ?_, ?_, ?_, ?_, ?_, by decide⟩
  · -- no candidate of the exact version
    intro index nsA nmA verA tpReq h
    simp only [pick_record]
    cases hre : (list_records index nsA nmA).isEmpty with
    | true => simp
    | false =>
      have hfil : (list_records index nsA nmA).filter (fun r => r.version == pyStrip verA)
          = [] := by
        rw [List.filter_eq_nil]
        intro r hr
        simpa using h r hr
      simp only [Bool.false_eq_true, if_false, hfil]
  · -- specific request, exact platform match exists
    intro index nsA nmA verA tpReq r htruthy hwant huniq hr hver htp
    have hrc : r ∈ (list_records index nsA nmA).filter (fun x => x.version == pyStrip verA) := by
      refine List.mem_filter.mpr ⟨hr, by simp [hver]⟩
    obtain ⟨c, cs, hcc⟩ : ∃ c cs,
        (list_records index nsA nmA).filter (fun x => x.version == pyStrip verA) = c :: cs := by
      cases hc : (list_records index nsA nmA).filter (fun x => x.version == pyStrip verA) with
      | nil => rw [hc] at hrc; cases hrc
      | cons a as => exact ⟨a, as, rfl⟩
    rw [pick_record_branch index nsA nmA verA tpReq c cs hcc]
    have hcond : (tpTruthy tpReq && !(normalize_tp_opt tpReq == "universal")) = true := by
      rw [htruthy]
      simp [hwant]
    rw [if_pos hcond]
    cases hfind : (c :: cs).find? (fun x => x.target_platform == normalize_tp_opt tpReq) with
    | none =>
      exfalso
      have := List.find?_eq_none.mp hfind r (hcc ▸ hrc)
      simp [htp] at this
    | some r' =>
      have hr' : r' = r := by
        refine find?_unique_version ?_ ?_ (hcc ▸ hrc) ?_ hfind
        · intro x1 h1 x2 h2 hv hp
          exact huniq x1 (List.mem_filter.mp (hcc ▸ h1)).1 x2
            (List.mem_filter.mp (hcc ▸ h2)).1 hv hp
        · intro x hx hp
          rw [htp]
          simpa using hp
        · intro x hx
          rw [hverOf _ _ x (hcc ▸ hx), hver]
      rw [hr']
  · -- specific request, no exact match, universal row exists
    intro index nsA nmA verA tpReq r htruthy hwant huniq hnoexact hr hver htp
    have hrc : r ∈ (list_records index nsA nmA).filter (fun x => x.version == pyStrip verA) := by
      refine List.mem_filter.mpr ⟨hr, by simp [hver]⟩
    obtain ⟨c, cs, hcc⟩ : ∃ c cs,
        (list_records index nsA nmA).filter (fun x => x.version == pyStrip verA) = c :: cs := by
      cases hc : (list_records index nsA nmA).filter (fun x => x.version == pyStrip verA) with
      | nil => rw [hc] at hrc; cases hrc
      | cons a as => exact ⟨a, as, rfl⟩
    rw [pick_record_branch index nsA nmA verA tpReq c cs hcc]
    have hcond : (tpTruthy tpReq && !(normalize_tp_opt tpReq == "universal")) = true := by
      rw [htruthy]
      simp [hwant]
    rw [if_pos hcond]
    have hfe : (c :: cs).find? (fun x => x.target_platform == normalize_tp_opt tpReq) = none := by
      rw [List.find?_eq_none]
      intro x hx
      have hxr := List.mem_filter.mp (hcc ▸ hx)
      have := hnoexact x hxr.1 (by simpa using hxr.2)
      simpa using this
    rw [hfe]
    cases hfind : (c :: cs).find? (fun x => x.target_platform == "universal") with
    | none =>
      exfalso
      have := List.find?_eq_none.mp hfind r (hcc ▸ hrc)
      simp [htp] at this
    | some r' =>
      have hr' : r' = r := by
        refine find?_unique_version ?_ ?_ (hcc ▸ hrc) ?_ hfind
        · intro x1 h1 x2 h2 hv hp
          exact huniq x1 (List.mem_filter.mp (hcc ▸ h1)).1 x2
            (List.mem_filter.mp (hcc ▸ h2)).1 hv hp
        · intro x hx hp
          rw [htp]
          simpa using hp
        · intro x hx
          rw [hverOf _ _ x (hcc ▸ hx), hver]
      rw [hr']
  · -- specific request, neither exact nor universal: first candidate
    intro index nsA nmA verA tpReq c cs htruthy hwant hcc hnone
    rw [pick_record_branch index nsA nmA verA tpReq c cs hcc]
    have hcond : (tpTruthy tpReq && !(normalize_tp_opt tpReq == "universal")) = true := by
      rw [htruthy]
      simp [hwant]
    rw [if_pos hcond]
    have hf1 : (c :: cs).find? (fun x => x.target_platform == normalize_tp_opt tpReq) = none := by
      rw [List.find?_eq_none]
      intro x hx
      simpa using (hnone x hx).1
    have hf2 : (c :: cs).find? (fun x => x.target_platform == "universal") = none := by
      rw [List.find?_eq_none]
      intro x hx
      simpa using (hnone x hx).2
    rw [hf1, hf2]
  · -- no platform preference: universal row exists
    intro index nsA nmA verA tpReq r hnp huniq hr hver htp
    have hrc : r ∈ (list_records index nsA nmA).filter (fun x => x.version == pyStrip verA) := by
      refine List.mem_filter.mpr ⟨hr, by simp [hver]⟩
    obtain ⟨c, cs, hcc⟩ : ∃ c cs,
        (list_records index nsA nmA).filter (fun x => x.version == pyStrip verA) = c :: cs := by
      cases hc : (list_records index nsA nmA).filter (fun x => x.version == pyStrip verA) with
      | nil => rw [hc] at hrc; cases hrc
      | cons a as => exact ⟨a, as, rfl⟩
    rw [pick_record_branch index nsA nmA verA tpReq c cs hcc]
    have hcond : (tpTruthy tpReq && !(normalize_tp_opt tpReq == "universal")) = false := by
      rcases hnp with h | h
      · rw [h]
        rfl
      · rw [h]
        simp
    rw [if_neg (by rw [hcond]; exact Bool.false_ne_true)]
    cases hfind : (c :: cs).find? (fun x => x.target_platform == "universal") with
    | none =>
      exfalso
      have := List.find?_eq_none.mp hfind r (hcc ▸ hrc)
      simp [htp] at this
    | some r' =>
      have hr' : r' = r := by
        refine find?_unique_version ?_ ?_ (hcc ▸ hrc) ?_ hfind
        · intro x1 h1 x2 h2 hv hp
          exact huniq x1 (List.mem_filter.mp (hcc ▸ h1)).1 x2
            (List.mem_filter.mp (hcc ▸ h2)).1 hv hp
        · intro x hx hp
          rw [htp]
          simpa using hp
        · intro x hx
          rw [hverOf _ _ x (hcc ▸ hx), hver]
      rw [hr']
  · -- no platform preference, no universal row: first candidate
    intro index nsA nmA verA tpReq c cs hnp hcc hnone
    rw [pick_record_branch index nsA nmA verA tpReq c cs hcc]
    have hcond : (tpTruthy tpReq && !(normalize_tp_opt tpReq == "universal")) = false := by
      rcases hnp with h | h
      · rw [h]
        rfl
      · rw [h]
        simp
    rw [if_neg (by rw [hcond]; exact Bool.false_ne_true)]
    have hf2 : (c :: cs).find? (fun x => x.target_platform == "universal") = none := by
      rw [List.find?_eq_none]
      intro x hx
      simpa using hnone x hx
    rw [hf2]

/-- Closed instance of `pick_record_selection_C5`: with no preference and
same-version rows `{universal, linux-x64}` the universal row is picked. -/
theorem pick_record_selection_C5_witness :
    pick_record
      [{ ns := "acme", name := "tool", version := "1.0.0", target_platform := "linux-x64",
         dir_path := "d2", published_ts := 2 },
       { ns := "acme", name := "tool", version := "1.0.0", target_platform := "universal",
         dir_path := "d1", published_ts := 1 }]
      "acme" "tool" "1.0.0" none
    = some { ns := "acme", name := "tool", version := "1.0.0",
             target_platform := "universal", dir_path := "d1", published_ts := 1 } := by
  refine pick_record_selection_C5.2.2.2.2.1 _ "acme" "tool" "1.0.0" none
    { ns := "acme", name := "tool", version := "1.0.0",
      target_platform := "universal", dir_path := "d1", published_ts := 1 }
    (Or.inl rfl) (by unfold pk_unique; decide) (by decide) (by decide) (by decide)

end ReleasePortal

namespace ReleasePortal

theorem list_records_pairwise (index : List ExtRow) (nsA nmA : String) :
    (list_records index nsA nmA).Pairwise (fun a b => extRowLt a b = false) :=
  pairwise_sortDescBy extRowLt extRowLt_asymm extRowLt_false_trans _

theorem compat_filter_eq (recs : List ExtRow) (tpEff : String) :
    (if tpEff == "universal" then recs
     else recs.filter (fun r => r.target_platform == tpEff || r.target_platform == "universal"))
      = recs.filter (fun r => compatTp tpEff r) := by
  cases huniv : (tpEff == "universal") with
  | true =>
    simp only [if_pos]
    have : ∀ r ∈ recs, compatTp tpEff r = true := by
      intro r hr
      simp [compatTp, huniv]
    rw [List.filter_eq_self.mpr this]
  | false =>
    simp only [Bool.false_eq_true, if_false]
    apply List.filter_congr
    intro r hr
    simp [compatTp, huniv]

end ReleasePortal

namespace ReleasePortal

/-- C1: for the latest-pick operation, when the stable pointer resolves to a
version with at least one platform-compatible record, exactly the compatible
records of that version are returned; otherwise the result is none exactly
when no compatible record exists, and else consists of exactly the
compatible records sharing the highest version under `version_key`.  The
concrete scenario: rows `(1.0.0,universal)` and `(1.1.0,linux-x64)` with no
stable pointer and platform `universal` yield exactly the `(1.1.0,linux-x64)`
record. -/
theorem latest_pick_C1 :
    (∀ (index : List ExtRow) (nsA extA sv tpEff : String),
        (∃ r ∈ list_records index nsA extA, r.version = sv ∧ compatTp tpEff r = true) →
        ∃ l, pick_latest_records index nsA extA (some sv) tpEff = some l ∧
          ∀ r : ExtRow, r ∈ l ↔
            (r ∈ list_records index nsA extA ∧ r.version = sv ∧ compatTp tpEff r = true))
    ∧ (∀ (index : List ExtRow) (nsA extA : String) (stableVer : Option String) (tpEff : String),
        (∀ sv, stableVer = some sv →
          ∀ r ∈ list_records index nsA extA, ¬(r.version = sv ∧ compatTp tpEff r = true)) →
        ((pick_latest_records index nsA extA stableVer tpEff = none ↔
            ∀ r ∈ list_records index nsA extA, compatTp tpEff r = false)
          ∧ (∀ l, pick_latest_records index nsA extA stableVer tpEff = some l →
              ∃ vtop,
                (∃ r ∈ list_records index nsA extA, compatTp tpEff r = true ∧ r.version = vtop)
                ∧ (∀ r ∈ list_records index nsA extA, compatTp tpEff r = true →
                    pyListLt (version_key vtop) (version_key r.version) = false)
                ∧ (∀ r : ExtRow, r ∈ l ↔
                    (r ∈ list_records index nsA extA ∧ compatTp tpEff r = true ∧
                      r.version = vtop)))))
    ∧ pick_latest_records
        [{ ns := "acme", name := "tool", version := "1.0.0", target_platform := "universal",
           dir_path := "d1", published_ts := 1 },
         { ns := "acme", name := "tool", version := "1.1.0", target_platform := "linux-x64",
           dir_path := "d2", published_ts := 2 }]
        "acme" "tool" none "universal"
      = some [{ ns := "acme", name := "tool", version := "1.1.0",
                target_platform := "linux-x64", dir_path := "d2", published_ts := 2 }] := by
  refine ⟨?_, ?_, by decide⟩
  · -- stable pointer resolves and has a compatible row
    intro index nsA extA sv tpEff h
    obtain ⟨r0, hr0, hv0, hc0⟩ := h
    have hre : (list_records index nsA extA).isEmpty = false := isEmpty_false_of_mem hr0
    have hr0st : r0 ∈ (list_records index nsA extA).filter
        (fun r => r.version == sv && compatTp tpEff r) := by
      refine List.mem_filter.mpr ⟨hr0, by simp [hv0, hc0]⟩
    have hst : ((list_records index nsA extA).filter
        (fun r => r.version == sv && compatTp tpEff r)).isEmpty = false :=
      isEmpty_false_of_mem hr0st
    refine ⟨(list_records index nsA extA).filter
        (fun r => r.version == sv && compatTp tpEff r), ?_, ?_⟩
    · simp only [pick_latest_records, hre, Bool.false_eq_true, if_false, hst]
    · intro r
      rw [List.mem_filter]
      simp [and_assoc]
  · -- stable pointer absent or without compatible rows
    intro index nsA extA stableVer tpEff hmiss
    have hstable : (match stableVer with
        | none => (none : Option (List ExtRow))
        | some sv =>
          let st := (list_records index nsA extA).filter
            (fun r => r.version == sv && compatTp tpEff r)
          if st.isEmpty then none else some st) = none := by
      cases stableVer with
      | none => rfl
      | some sv =>
        have hfil : (list_records index nsA extA).filter
            (fun r => r.version == sv && compatTp tpEff r) = [] := by
          rw [List.filter_eq_nil_iff]
          intro r hr
          have := hmiss sv rfl r hr
          simp only [Bool.and_eq_true, beq_iff_eq]
          tauto
        simp [hfil]
    by_cases hnil : list_records index nsA extA = []
    · constructor
      · constructor
        · intro _ r hr
          rw [hnil] at hr
          cases hr
        · intro _
          simp [pick_latest_records, hnil]
      · intro l hl
        simp [pick_latest_records, hnil] at hl
    · have hre : (list_records index nsA extA).isEmpty = false := by
        cases hl : list_records index nsA extA with
        | nil => exact absurd hl hnil
        | cons x xs => rfl
      have hpick : pick_latest_records index nsA extA stableVer tpEff =
          (match (list_records index nsA extA).filter (fun r => compatTp tpEff r) with
           | [] => none
           | f :: fs => some ((f :: fs).filter (fun r => r.version == f.version))) := by
        simp only [pick_latest_records, hre, Bool.false_eq_true, if_false, hstable,
          compat_filter_eq]
      cases hfil : (list_records index nsA extA).filter (fun r => compatTp tpEff r) with
      | nil =>
        rw [hfil] at hpick
        constructor
        · rw [hpick]
          constructor
          · intro _ r hr
            have := List.filter_eq_nil_iff.mp hfil r hr
            simpa using this
          · intro _
            rfl
        · intro l hl
          rw [hpick] at hl
          exact absurd hl (by simp)
      | cons f fs =>
        rw [hfil] at hpick
        have hfmem : f ∈ (list_records index nsA extA).filter (fun r => compatTp tpEff r) := by
          rw [hfil]
          exact List.mem_cons_self f fs
        have hfprops := List.mem_filter.mp hfmem
        constructor
        · rw [hpick]
          constructor
          · intro h
            exact absurd h (by simp)
          · intro hall
            exfalso
            have := hall f hfprops.1
            rw [hfprops.2] at this
            exact absurd this (by simp)
        · intro l hl
          rw [hpick] at hl
          have hleq : l = (f :: fs).filter (fun r => r.version == f.version) := by
            injection hl with h
            exact h.symm
          refine ⟨f.version, ⟨f, hfprops.1, hfprops.2, rfl⟩, ?_, ?_⟩
          · -- maximality of the head's version among compatible rows
            intro r hr hcr
            have hrfil : r ∈ f :: fs := by
              rw [← hfil]
              exact List.mem_filter.mpr ⟨hr, hcr⟩
            have hpw : (f :: fs).Pairwise (fun a b => extRowLt a b = false) := by
              rw [← hfil]
              exact List.Pairwise.filter _ (list_records_pairwise index nsA extA)
            rcases List.mem_cons.mp hrfil with hrf | hrfs
            · rw [hrf]
              exact pyListLt_irrefl _
            · exact (List.pairwise_cons.mp hpw).1 r hrfs
          · intro r
            rw [hleq, List.mem_filter]
            constructor
            · intro ⟨hrf, hrv⟩
              have : r ∈ (list_records index nsA extA).filter (fun x => compatTp tpEff x) := by
                rw [hfil]
                exact hrf
              have hm := List.mem_filter.mp this
              exact ⟨hm.1, hm.2, by simpa using hrv⟩
            · intro ⟨hrrec, hrc, hrv⟩
              refine ⟨?_, by simp [hrv]⟩
              rw [← hfil]
              exact List.mem_filter.mpr ⟨hrrec, hrc⟩

/-- Closed instance of `latest_pick_C1`: with the stable pointer at `1.0.0`
and a compatible universal row, exactly the compatible `1.0.0` rows are
returned. -/
theorem latest_pick_C1_witness :
    ∃ l, pick_latest_records
        [{ ns := "acme", name := "tool", version := "1.0.0", target_platform := "universal",
           dir_path := "d1", published_ts := 1 },
         { ns := "acme", name := "tool", version := "1.1.0", target_platform := "linux-x64",
           dir_path := "d2", published_ts := 2 }]
        "acme" "tool" (some "1.0.0") "universal" = some l := by
  obtain ⟨l, hl, _⟩ := latest_pick_C1.1
    [{ ns := "acme", name := "tool", version := "1.0.0", target_platform := "universal",
       dir_path := "d1", published_ts := 1 },
     { ns := "acme", name := "tool", version := "1.1.0", target_platform := "linux-x64",
       dir_path := "d2", published_ts := 2 }]
    "acme" "tool" "1.0.0" "universal"
    ⟨{ ns := "acme", name := "tool", version := "1.0.0", target_platform := "universal",
       dir_path := "d1", published_ts := 1 }, by decide, rfl, by decide⟩
  exact ⟨l, hl⟩

end ReleasePortal

namespace ReleasePortal

theorem scan_shape (project ver platform : String) (files : List PlatFile) :
    ((scan_platform_dir project ver platform files).is_valid = 1 ∧
      (scan_platform_dir project ver platform files).invalid_reason = none)
    ∨ ((scan_platform_dir project ver platform files).is_valid = 0 ∧
      ∃ c, (scan_platform_dir project ver platform files).invalid_reason = some c) := by
  cases hmf : files.filter (fun f => List.isSuffixOf ".json".data f.name.data) with
  | nil =>
    right
    simp [scan_platform_dir, hmf]
  | cons m rest =>
    cases rest with
    | cons m2 r2 =>
      right
      simp [scan_platform_dir, hmf]
    | nil =>
      cases hany : files.any (fun f => f.name == binary_name m.name) with
      | false =>
        right
        simp [scan_platform_dir, hmf, hany]
      | true =>
        cases hp : m.parsed with
        | none =>
          right
          simp [scan_platform_dir, hmf, hany, hp]
        | some obj =>
          cases h1 : req_str obj.sub_product_name with
          | none =>
            right
            simp [scan_platform_dir, hmf, hany, hp, h1]
          | some sub =>
            cases h2 : req_str obj.version with
            | none =>
              right
              simp [scan_platform_dir, hmf, hany, hp, h1, h2]
            | some vv =>
              cases h3 : req_str obj.os_type with
              | none =>
                right
                simp [scan_platform_dir, hmf, hany, hp, h1, h2, h3]
              | some osT =>
                cases h4 : req_str obj.arch with
                | none =>
                  right
                  simp [scan_platform_dir, hmf, hany, hp, h1, h2, h3, h4]
                | some ar =>
                  by_cases hsub : sub = project
                  · by_cases hvv : vv = ver
                    · by_cases hnp0 : normalize_platform osT ar = ""
                      · right
                        simp [scan_platform_dir, hmf, hany, hp, h1, h2, h3, h4, hsub, hvv, hnp0]
                      · by_cases hnpp : normalize_platform osT ar = platform
                        · left
                          rw [hnpp] at hnp0
                          simp [scan_platform_dir, hmf, hany, hp, h1, h2, h3, h4, hsub, hvv,
                            hnp0, hnpp]
                        · right
                          simp [scan_platform_dir, hmf, hany, hp, h1, h2, h3, h4, hsub, hvv,
                            hnp0, hnpp]
                    · right
                      simp [scan_platform_dir, hmf, hany, hp, h1, h2, h3, h4, hsub, hvv]
                  · right
                    simp [scan_platform_dir, hmf, hany, hp, h1, h2, h3, h4, hsub]

end ReleasePortal

namespace ReleasePortal

/-- C3: a scanned IDE platform row is valid iff exactly one metadata `.json`
file exists, its paired binary (the metadata filename with the `.json`
suffix stripped) exists, the metadata parses as an object with the four
non-empty string fields, those fields match the project and version
directory names, and the normalized platform equals the platform directory
name; `is_valid=1` coincides with an absent reason code, and each failing
check, tested in source order, yields exactly its reason code.  The concrete
scenario: metadata `os_type=linux, arch=x86-64` is valid under directory
`linux-x64` and yields `platform_dir_mismatch` under `win32-x64`. -/
theorem ide_scan_validation_C3 :
    (∀ (project ver platform : String) (files : List PlatFile), platform ≠ "" →
      ((scan_platform_dir project ver platform files).is_valid = 1 ↔
        ∃ m, files.filter (fun f => List.isSuffixOf ".json".data f.name.data) = [m] ∧
          (∃ b ∈ files, b.name = binary_name m.name) ∧
          ∃ obj, m.parsed = some obj ∧
          ∃ sub vv osT ar,
            req_str obj.sub_product_name = some sub ∧ req_str obj.version = some vv ∧
            req_str obj.os_type = some osT ∧ req_str obj.arch = some ar ∧
            sub = project ∧ vv = ver ∧ normalize_platform osT ar = platform))
    ∧ (∀ (project ver platform : String) (files : List PlatFile),
        (scan_platform_dir project ver platform files).is_valid = 1 ↔
        (scan_platform_dir project ver platform files).invalid_reason = none)
    ∧ (∀ (project ver platform : String) (files : List PlatFile),
        files.filter (fun f => List.isSuffixOf ".json".data f.name.data) = [] →
        scan_platform_dir project ver platform files = ⟨0, some "no_meta_json"⟩)
    ∧ (∀ (project ver platform : String) (files : List PlatFile) (m m2 : PlatFile)
          (rest : List PlatFile),
        files.filter (fun f => List.isSuffixOf ".json".data f.name.data) = m :: m2 :: rest →
        scan_platform_dir project ver platform files = ⟨0, some "multiple_meta_json"⟩)
    ∧ (∀ (project ver platform : String) (files : List PlatFile) (m : PlatFile),
        files.filter (fun f => List.isSuffixOf ".json".data f.name.data) = [m] →
        (¬ ∃ b ∈ files, b.name = binary_name m.name) →
        scan_platform_dir project ver platform files = ⟨0, some "binary_missing"⟩)
    ∧ (∀ (project ver platform : String) (files : List PlatFile) (m : PlatFile),
        files.filter (fun f => List.isSuffixOf ".json".data f.name.data) = [m] →
        (∃ b ∈ files, b.name = binary_name m.name) →
        m.parsed = none →
        scan_platform_dir project ver platform files = ⟨0, some "meta_json_unparseable"⟩)
    ∧ (∀ (project ver platform : String) (files : List PlatFile) (m : PlatFile) (obj : MetaObj),
        files.filter (fun f => List.isSuffixOf ".json".data f.name.data) = [m] →
        (∃ b ∈ files, b.name = binary_name m.name) →
        m.parsed = some obj →
        (req_str obj.sub_product_name = none ∨ req_str obj.version = none ∨
          req_str obj.os_type = none ∨ req_str obj.arch = none) →
        scan_platform_dir project ver platform files = ⟨0, some "meta_missing_required_fields"⟩)
    ∧ (∀ (project ver platform : String) (files : List PlatFile) (m : PlatFile) (obj : MetaObj)
          (sub vv osT ar : String),
        files.filter (fun f => List.isSuffixOf ".json".data f.name.data) = [m] →
        (∃ b ∈ files, b.name = binary_name m.name) →
        m.parsed = some obj →
        req_str obj.sub_product_name = some sub → req_str obj.version = some vv →
        req_str obj.os_type = some osT → req_str obj.arch = some ar →
        sub ≠ project →
        scan_platform_dir project ver platform files = ⟨0, some "meta_project_mismatch"⟩)
    ∧ (∀ (project ver platform : String) (files : List PlatFile) (m : PlatFile) (obj : MetaObj)
          (sub vv osT ar : String),
        files.filter (fun f => List.isSuffixOf ".json".data f.name.data) = [m] →
        (∃ b ∈ files, b.name = binary_name m.name) →
        m.parsed = some obj →
        req_str obj.sub_product_name = some sub → req_str obj.version = some vv →
        req_str obj.os_type = some osT → req_str obj.arch = some ar →
        sub = project → vv ≠ ver →
        scan_platform_dir project ver platform files = ⟨0, some "meta_version_mismatch"⟩)
    ∧ (∀ (project ver platform : String) (files : List PlatFile) (m : PlatFile) (obj : MetaObj)
          (sub vv osT ar : String),
        files.filter (fun f => List.isSuffixOf ".json".data f.name.data) = [m] →
        (∃ b ∈ files, b.name = binary_name m.name) →
        m.parsed = some obj →
        req_str obj.sub_product_name = some sub → req_str obj.version = some vv →
        req_str obj.os_type = some osT → req_str obj.arch = some ar →
        sub = project → vv = ver → normalize_platform osT ar = "" →
        scan_platform_dir project ver platform files = ⟨0, some "platform_normalize_failed"⟩)
    ∧ (∀ (project ver platform : String) (files : List PlatFile) (m : PlatFile) (obj : MetaObj)
          (sub vv osT ar : String),
        files.filter (fun f => List.isSuffixOf ".json".data f.name.data) = [m] →
        (∃ b ∈ files, b.name = binary_name m.name) →
        m.parsed = some obj →
        req_str obj.sub_product_name = some sub → req_str obj.version = some vv →
        req_str obj.os_type = some osT → req_str obj.arch = some ar →
        sub = project → vv = ver → normalize_platform osT ar ≠ "" →
        normalize_platform osT ar ≠ platform →
        scan_platform_dir project ver platform files = ⟨0, some "platform_dir_mismatch"⟩)
    ∧ scan_platform_dir "ide1" "1.0.0" "linux-x64"
        [⟨"ide1.bin", none⟩,
         ⟨"ide1.bin.json", some ⟨some "ide1", some "1.0.0", some "linux", some "x86-64"⟩⟩]
        = ⟨1, none⟩
    ∧ scan_platform_dir "ide1" "1.0.0" "win32-x64"
        [⟨"ide1.bin", none⟩,
         ⟨"ide1.bin.json", some ⟨some "ide1", some "1.0.0", some "linux", some "x86-64"⟩⟩]
        = ⟨0, some "platform_dir_mismatch"⟩ := by
  have hany_of : ∀ (files : List PlatFile) (m : PlatFile),
      (∃ b ∈ files, b.name = binary_name m.name) →
      (files.any fun f => f.name == binary_name m.name) = true := by
    intro files m ⟨b, hb, hbn⟩
    rw [List.any_eq_true]
    exact ⟨b, hb, by simp [hbn]⟩
  have hany_not : ∀ (files : List PlatFile) (m : PlatFile),
      (¬ ∃ b ∈ files, b.name = binary_name m.name) →
      (files.any fun f => f.name == binary_name m.name) = false := by
    intro files m h
    rw [List.any_eq_false]
    intro b hb
    simp only [beq_iff_eq]
    intro hbn
    exact h ⟨b, hb, hbn⟩
  refine ⟨?_, ?_, ?_, ?_, ?_, ?_, ?_, ?_, ?_, ?_, ?_, by decide, by decide⟩
  · -- validity characterization
    intro project ver platform files hplat
    constructor
    · intro hv
      cases hmf : files.filter (fun f => List.isSuffixOf ".json".data f.name.data) with
      | nil => simp [scan_platform_dir, hmf] at hv
      | cons m rest =>
        cases rest with
        | cons m2 r2 => simp [scan_platform_dir, hmf] at hv
        | nil =>
          cases hany : files.any (fun f => f.name == binary_name m.name) with
          | false => simp [scan_platform_dir, hmf, hany] at hv
          | true =>
            cases hp : m.parsed with
            | none => simp [scan_platform_dir, hmf, hany, hp] at hv
            | some obj =>
              cases h1 : req_str obj.sub_product_name with
              | none => simp [scan_platform_dir, hmf, hany, hp, h1] at hv
              | some sub =>
                cases h2 : req_str obj.version with
                | none => simp [scan_platform_dir, hmf, hany, hp, h1, h2] at hv
                | some vv =>
                  cases h3 : req_str obj.os_type with
                  | none => simp [scan_platform_dir, hmf, hany, hp, h1, h2, h3] at hv
                  | some osT =>
                    cases h4 : req_str obj.arch with
                    | none => simp [scan_platform_dir, hmf, hany, hp, h1, h2, h3, h4] at hv
                    | some ar =>
                      by_cases hsub : sub = project
                      · by_cases hvv : vv = ver
                        · by_cases hnp0 : normalize_platform osT ar = ""
                          · simp [scan_platform_dir, hmf, hany, hp, h1, h2, h3, h4, hsub,
                              hvv, hnp0] at hv
                          · by_cases hnpp : normalize_platform osT ar = platform
                            · refine ⟨m, rfl, ?_, obj, hp, sub, vv, osT, ar, h1, h2, h3, h4,
                                hsub, hvv, hnpp⟩
                              rcases List.any_eq_true.mp hany with ⟨b, hb, hbn⟩
                              exact ⟨b, hb, by simpa using hbn⟩
                            · simp [scan_platform_dir, hmf, hany, hp, h1, h2, h3, h4, hsub,
                                hvv, hnp0, hnpp] at hv
                        · simp [scan_platform_dir, hmf, hany, hp, h1, h2, h3, h4, hsub,
                            hvv] at hv
                      · simp [scan_platform_dir, hmf, hany, hp, h1, h2, h3, h4, hsub] at hv
    · intro ⟨m, hmf, hbin, obj, hp, sub, vv, osT, ar, h1, h2, h3, h4, hsub, hvv, hnp⟩
      have hany := hany_of files m hbin
      have hnp0 : ¬ normalize_platform osT ar = "" := by
        rw [hnp]
        exact hplat
      simp [scan_platform_dir, hmf, hany, hp, h1, h2, h3, h4, hsub, hvv, hnp, hnp0, hplat]
  · -- is_valid=1 coincides with reason none
    intro project ver platform files
    rcases scan_shape project ver platform files with ⟨h1, h2⟩ | ⟨h1, c, h2⟩
    · simp [h1, h2]
    · simp [h1, h2]
  · -- no metadata file
    intro project ver platform files hmf
    simp [scan_platform_dir, hmf]
  · -- several metadata files
    intro project ver platform files m m2 rest hmf
    simp [scan_platform_dir, hmf]
  · -- paired binary missing
    intro project ver platform files m hmf hnb
    have hany := hany_not files m hnb
    simp [scan_platform_dir, hmf, hany]
  · -- metadata unparseable
    intro project ver platform files m hmf hbin hp
    have hany := hany_of files m hbin
    simp [scan_platform_dir, hmf, hany, hp]
  · -- required field missing
    intro project ver platform files m obj hmf hbin hp hmiss
    have hany := hany_of files m hbin
    rcases h1 : req_str obj.sub_product_name with _ | s1
    · simp [scan_platform_dir, hmf, hany, hp, h1]
    · rcases h2 : req_str obj.version with _ | s2
      · simp [scan_platform_dir, hmf, hany, hp, h1, h2]
      · rcases h3 : req_str obj.os_type with _ | s3
        · simp [scan_platform_dir, hmf, hany, hp, h1, h2, h3]
        · rcases h4 : req_str obj.arch with _ | s4
          · simp [scan_platform_dir, hmf, hany, hp, h1, h2, h3, h4]
          · rcases hmiss with h | h | h | h <;> simp_all
  · -- project mismatch
    intro project ver platform files m obj sub vv osT ar hmf hbin hp h1 h2 h3 h4 hsub
    have hany := hany_of files m hbin
    simp [scan_platform_dir, hmf, hany, hp, h1, h2, h3, h4, hsub]
  · -- version mismatch
    intro project ver platform files m obj sub vv osT ar hmf hbin hp h1 h2 h3 h4 hsub hvv
    have hany := hany_of files m hbin
    simp [scan_platform_dir, hmf, hany, hp, h1, h2, h3, h4, hsub, hvv]
  · -- normalization yields the empty string (dead in practice)
    intro project ver platform files m obj sub vv osT ar hmf hbin hp h1 h2 h3 h4 hsub hvv hnp0
    have hany := hany_of files m hbin
    simp [scan_platform_dir, hmf, hany, hp, h1, h2, h3, h4, hsub, hvv, hnp0]
  · -- platform directory mismatch
    intro project ver platform files m obj sub vv osT ar hmf hbin hp h1 h2 h3 h4 hsub hvv
      hnp0 hnpp
    have hany := hany_of files m hbin
    simp [scan_platform_dir, hmf, hany, hp, h1, h2, h3, h4, hsub, hvv, hnp0, hnpp]

/-- Closed instance of `ide_scan_validation_C3`: the valid scenario row via
the validity characterization. -/
theorem ide_scan_validation_C3_witness :
    (scan_platform_dir "ide1" "1.0.0" "linux-x64"
      [⟨"ide1.bin", none⟩,
       ⟨"ide1.bin.json", some ⟨some "ide1", some "1.0.0", some "linux", some "x86-64"⟩⟩]).is_valid
      = 1 := by
  refine (ide_scan_validation_C3.1 "ide1" "1.0.0" "linux-x64"
    [⟨"ide1.bin", none⟩,
     ⟨"ide1.bin.json", some ⟨some "ide1", some "1.0.0", some "linux", some "x86-64"⟩⟩]
    (by decide)).mpr ?_
  refine ⟨⟨"ide1.bin.json", some ⟨some "ide1", some "1.0.0", some "linux", some "x86-64"⟩⟩,
    by decide, ⟨⟨"ide1.bin", none⟩, by decide, by decide⟩,
    ⟨some "ide1", some "1.0.0", some "linux", some "x86-64"⟩, rfl,
    "ide1", "1.0.0", "linux", "x86-64", by decide, by decide, by decide, by decide,
    rfl, rfl, by decide⟩

end ReleasePortal

namespace ReleasePortal

theorem strLtB_asymm {a b : List Char} (h : strLtB a b = true) : strLtB b a = false := by
  induction a generalizing b with
  | nil =>
    cases b with
    | nil => simp [strLtB] at h
    | cons y ys => rfl
  | cons x xs ih =>
    cases b with
    | nil => simp [strLtB] at h
    | cons y ys =>
      rcases Nat.lt_trichotomy x.toNat y.toNat with hlt | heq | hgt
      · simp only [strLtB]
        rw [if_neg (show ¬ y.toNat < x.toNat by omega), if_pos hlt]
      · simp only [strLtB] at h ⊢
        rw [if_neg (show ¬ x.toNat < y.toNat by omega),
          if_neg (show ¬ y.toNat < x.toNat by omega)] at h
        rw [if_neg (show ¬ y.toNat < x.toNat by omega),
          if_neg (show ¬ x.toNat < y.toNat by omega)]
        exact ih h
      · simp only [strLtB] at h
        rw [if_neg (show ¬ x.toNat < y.toNat by omega), if_pos hgt] at h
        exact absurd h (by simp)

theorem strLtB_false_trans {a b c : List Char} (h₁ : strLtB a b = false)
    (h₂ : strLtB b c = false) : strLtB a c = false := by
  induction a generalizing b c with
  | nil =>
    cases b with
    | nil =>
      cases c with
      | nil => rfl
      | cons z zs => simpa [strLtB] using h₂
    | cons y ys => simp [strLtB] at h₁
  | cons x xs ih =>
    cases c with
    | nil => rfl
    | cons z zs =>
      cases b with
      | nil => simp [strLtB] at h₂
      | cons y ys =>
        rcases Nat.lt_trichotomy x.toNat y.toNat with hxy | hxy | hxy
        · simp only [strLtB] at h₁
          rw [if_pos hxy] at h₁
          exact absurd h₁ (by simp)
        · rcases Nat.lt_trichotomy y.toNat z.toNat with hyz | hyz | hyz
          · simp only [strLtB] at h₂
            rw [if_pos hyz] at h₂
            exact absurd h₂ (by simp)
          · simp only [strLtB] at h₁ h₂ ⊢
            rw [if_neg (show ¬ x.toNat < y.toNat by omega),
              if_neg (show ¬ y.toNat < x.toNat by omega)] at h₁
            rw [if_neg (show ¬ y.toNat < z.toNat by omega),
              if_neg (show ¬ z.toNat < y.toNat by omega)] at h₂
            rw [if_neg (show ¬ x.toNat < z.toNat by omega),
              if_neg (show ¬ z.toNat < x.toNat by omega)]
            exact ih h₁ h₂
          · simp only [strLtB]
            rw [if_neg (show ¬ x.toNat < z.toNat by omega),
              if_pos (show z.toNat < x.toNat by omega)]
        · rcases Nat.lt_trichotomy y.toNat z.toNat with hyz | hyz | hyz
          · simp only [strLtB] at h₂
            rw [if_pos hyz] at h₂
            exact absurd h₂ (by simp)
          · simp only [strLtB]
            rw [if_neg (show ¬ x.toNat < z.toNat by omega),
              if_pos (show z.toNat < x.toNat by omega)]
          · simp only [strLtB]
            rw [if_neg (show ¬ x.toNat < z.toNat by omega),
              if_pos (show z.toNat < x.toNat by omega)]

theorem verStrLt_asymm (a b : String) (h : verStrLt a b = true) : verStrLt b a = false :=
  strLtB_asymm h

theorem verStrLt_false_trans (a b c : String) (h₁ : verStrLt a b = false)
    (h₂ : verStrLt b c = false) : verStrLt a c = false :=
  strLtB_false_trans h₁ h₂

theorem foldl_max_le (l : List Nat) (a : Nat) : a ≤ l.foldl max a ∧ ∀ x ∈ l, x ≤ l.foldl max a := by
  induction l generalizing a with
  | nil => exact ⟨Nat.le_refl a, by simp⟩
  | cons x xs ih =>
    have h := ih (max a x)
    refine ⟨le_trans (Nat.le_max_left a x) h.1, ?_⟩
    intro y hy
    rcases List.mem_cons.mp hy with hyx | hyxs
    · subst hyx
      exact le_trans (Nat.le_max_right a y) h.1
    · exact h.2 y hyxs

theorem foldl_max_mem (l : List Nat) (a : Nat) : l.foldl max a = a ∨ l.foldl max a ∈ l := by
  induction l generalizing a with
  | nil => exact Or.inl rfl
  | cons x xs ih =>
    simp only [List.foldl_cons]
    rcases ih (max a x) with h | h
    · rcases Nat.le_total a x with hax | hxa
      · right
        rw [h, Nat.max_eq_right hax]
        exact List.mem_cons_self x xs
      · left
        rw [h, Nat.max_eq_left hxa]
    · right
      exact List.mem_cons_of_mem x h

theorem foldl_max_mem_of_ne_nil (l : List Nat) (h : l ≠ []) : l.foldl max 0 ∈ l := by
  rcases foldl_max_mem l 0 with h0 | hm
  · cases l with
    | nil => exact absurd rfl h
    | cons x xs =>
      have hx := (foldl_max_le (x :: xs) 0).2 x (List.mem_cons_self x xs)
      rw [h0] at hx
      have : x = 0 := Nat.le_zero.mp hx
      rw [h0, ← this]
      exact List.mem_cons_self x xs
  · exact hm

end ReleasePortal

namespace ReleasePortal

theorem list_versions_eq (index : List IdeRow) (projectArg : String)
    (hseg : safe_seg (pyStrip projectArg) = true) :
    list_versions index projectArg =
      (sortDescBy verStrLt
        (((index.filter (fun r => r.project == pyStrip projectArg && r.is_valid == 1)).map
          (fun r => r.version)).dedup)).map
        (fun v =>
          { version := v
            published_ts := (((index.filter (fun r => r.project == pyStrip projectArg &&
                r.is_valid == 1)).filter (fun r => r.version == v)).map
                (fun r => r.published_ts)).foldl max 0
            is_latest := !((((index.filter (fun r => r.project == pyStrip projectArg &&
                r.is_valid == 1)).filter (fun r => r.version == v)).map
                (fun r => r.is_latest)).foldl max 0 == 0) }) := by
  simp only [list_versions, hseg, Bool.not_true, Bool.false_eq_true, if_false]

theorem list_versions_bad_seg (index : List IdeRow) (projectArg : String)
    (hseg : safe_seg (pyStrip projectArg) = false) :
    list_versions index projectArg = [] := by
  simp only [list_versions, hseg, Bool.not_false, if_true]

end ReleasePortal

namespace ReleasePortal

/-- C6 counterexample: with valid rows for versions `9.0.0` and `10.0.0`,
`list_versions` lists `9.0.0` first — the `ORDER BY version DESC` is a
bytewise string comparison — although `10.0.0` is the newer version under
both of the repository's version comparators (`version_key` and the
semver-ish release key), so the entries are not ordered newest first. -/
theorem list_versions_order_C6_cex :
    list_versions
      [{ project := "ide1", version := "9.0.0", platform := "linux-x64",
         meta_rel_path := "m9", binary_rel_path := "b9", published_ts := 5,
         is_latest := 0, is_valid := 1, invalid_reason := none },
       { project := "ide1", version := "10.0.0", platform := "linux-x64",
         meta_rel_path := "m10", binary_rel_path := "b10", published_ts := 7,
         is_latest := 0, is_valid := 1, invalid_reason := none }]
      "ide1"
      = [{ version := "9.0.0", published_ts := 5, is_latest := false },
         { version := "10.0.0", published_ts := 7, is_latest := false }]
    ∧ pyListLt (version_key "9.0.0") (version_key "10.0.0") = true
    ∧ semKeyLt (semverish_key "9.0.0") (semverish_key "10.0.0") = true := by
  exact ⟨by decide, by decide, by decide⟩

/-- C6 amended: `list_versions` returns exactly one entry per version having
at least one `is_valid=1` row of the (stripped, path-safe) project, with
`publishedAt` equal to the maximum `published_ts` over those valid rows, and
the entries are ordered by version string descending under the bytewise
(SQLite binary collation) comparison — which agrees with newest-first only
when that bytewise order matches the version ordering. -/
theorem list_versions_amended_C6 :
    (∀ (index : List IdeRow) (projectArg v : String),
        (∃ e ∈ list_versions index projectArg, e.version = v) ↔
        (safe_seg (pyStrip projectArg) = true ∧
          ∃ r ∈ index, r.project = pyStrip projectArg ∧ r.is_valid = 1 ∧ r.version = v))
    ∧ (∀ (index : List IdeRow) (projectArg : String),
        ((list_versions index projectArg).map (fun e => e.version)).Nodup)
    ∧ (∀ (index : List IdeRow) (projectArg : String) (e : IdeVersionRow),
        e ∈ list_versions index projectArg →
        (∃ r ∈ index, r.project = pyStrip projectArg ∧ r.is_valid = 1 ∧
          r.version = e.version ∧ r.published_ts = e.published_ts)
        ∧ (∀ r ∈ index, r.project = pyStrip projectArg → r.is_valid = 1 →
            r.version = e.version → r.published_ts ≤ e.published_ts))
    ∧ (∀ (index : List IdeRow) (projectArg : String),
        ((list_versions index projectArg).map (fun e => e.version)).Pairwise
          (fun a b => verStrLt a b = false)) := by
  have hmapver : ∀ (index : List IdeRow) (projectArg : String)
      (hseg : safe_seg (pyStrip projectArg) = true),
      (list_versions index projectArg).map (fun e => e.version) =
        sortDescBy verStrLt
          (((index.filter (fun r => r.project == pyStrip projectArg && r.is_valid == 1)).map
            (fun r => r.version)).dedup) := by
    intro index projectArg hseg
    rw [list_versions_eq index projectArg hseg, List.map_map]
    have hcomp : ∀ l : List String, ∀ f : String → IdeVersionRow,
        (∀ v, (f v).version = v) → l.map ((fun (e : IdeVersionRow) => e.version) ∘ f) = l := by
      intro l f hf
      have h1 : l.map ((fun (e : IdeVersionRow) => e.version) ∘ f) = l.map (fun v => v) := by
        apply List.map_congr_left
        intro a _
        exact hf a
      rw [h1, List.map_id']
    exact hcomp _ _ (fun v => rfl)
  refine ⟨?_, ?_, ?_, ?_⟩
  · -- one entry per version with a valid row
    intro index projectArg v
    by_cases hseg : safe_seg (pyStrip projectArg) = true
    · rw [list_versions_eq index projectArg hseg]
      constructor
      · rintro ⟨e, he, hev⟩
        rcases List.mem_map.mp he with ⟨v', hv', hfv⟩
        have hvv : v' = v := by rw [← hev, ← hfv]
        subst hvv
        have hv2 := List.mem_dedup.mp ((mem_sortDescBy _ _ _).mp hv')
        rcases List.mem_map.mp hv2 with ⟨r, hr, hrv⟩
        have hrf := List.mem_filter.mp hr
        have hpred := hrf.2
        simp only [Bool.and_eq_true, beq_iff_eq] at hpred
        exact ⟨hseg, r, hrf.1, hpred.1, hpred.2, hrv⟩
      · rintro ⟨-, r, hr, hproj, hvalid, hver⟩
        have hrf : r ∈ index.filter
            (fun r => r.project == pyStrip projectArg && r.is_valid == 1) :=
          List.mem_filter.mpr ⟨hr, by simp [hproj, hvalid]⟩
        have hvm : v ∈ ((index.filter (fun r => r.project == pyStrip projectArg &&
            r.is_valid == 1)).map (fun r => r.version)).dedup :=
          List.mem_dedup.mpr (List.mem_map.mpr ⟨r, hrf, hver⟩)
        have hvs := (mem_sortDescBy verStrLt _ v).mpr hvm
        exact ⟨_, List.mem_map_of_mem _ hvs, rfl⟩
    · rw [Bool.not_eq_true] at hseg
      rw [list_versions_bad_seg index projectArg hseg]
      simp [hseg]
  · -- no duplicate versions
    intro index projectArg
    by_cases hseg : safe_seg (pyStrip projectArg) = true
    · rw [hmapver index projectArg hseg]
      exact ((perm_sortDescBy verStrLt _).nodup_iff).mpr (List.nodup_dedup _)
    · rw [Bool.not_eq_true] at hseg
      rw [list_versions_bad_seg index projectArg hseg]
      simp
  · -- publishedAt is the max over the version's valid rows
    intro index projectArg e he
    by_cases hseg : safe_seg (pyStrip projectArg) = true
    · rw [list_versions_eq index projectArg hseg] at he
      rcases List.mem_map.mp he with ⟨v, hv, hfv⟩
      have hv2 := List.mem_dedup.mp ((mem_sortDescBy _ _ _).mp hv)
      rcases List.mem_map.mp hv2 with ⟨r0, hr0, hr0v⟩
      have hr0g : r0 ∈ (index.filter (fun r => r.project == pyStrip projectArg &&
          r.is_valid == 1)).filter (fun r => r.version == v) :=
        List.mem_filter.mpr ⟨hr0, by simp [hr0v]⟩
      have hgne : ((index.filter (fun r => r.project == pyStrip projectArg &&
          r.is_valid == 1)).filter (fun r => r.version == v)).map
          (fun r => r.published_ts) ≠ [] := by
        intro hnil
        rw [List.map_eq_nil] at hnil
        rw [hnil] at hr0g
        cases hr0g
      have hfold := foldl_max_mem_of_ne_nil _ hgne
      rcases List.mem_map.mp hfold with ⟨r1, hr1, hr1p⟩
      have hr1f := List.mem_filter.mp hr1
      have hr1ff := List.mem_filter.mp hr1f.1
      have hpred := hr1ff.2
      simp only [Bool.and_eq_true, beq_iff_eq] at hpred
      have hr1v : r1.version = v := by simpa using hr1f.2
      constructor
      · refine ⟨r1, hr1ff.1, hpred.1, hpred.2, ?_, ?_⟩
        · rw [hr1v, ← hfv]
        · rw [hr1p, ← hfv]
      · intro r hr hproj hvalid hver
        have hrg : r ∈ (index.filter (fun x => x.project == pyStrip projectArg &&
            x.is_valid == 1)).filter (fun x => x.version == v) := by
          refine List.mem_filter.mpr ⟨List.mem_filter.mpr ⟨hr, by simp [hproj, hvalid]⟩, ?_⟩
          have : e.version = v := by rw [← hfv]
          simp [hver, this]
        have hle := (foldl_max_le (((index.filter (fun x => x.project == pyStrip projectArg &&
            x.is_valid == 1)).filter (fun x => x.version == v)).map
            (fun x => x.published_ts)) 0).2 r.published_ts
          (List.mem_map_of_mem _ hrg)
        rw [← hfv]
        exact hle
    · rw [Bool.not_eq_true] at hseg
      rw [list_versions_bad_seg index projectArg hseg] at he
      cases he
  · -- order: version string bytewise descending
    intro index projectArg
    by_cases hseg : safe_seg (pyStrip projectArg) = true
    · rw [hmapver index projectArg hseg]
      exact pairwise_sortDescBy verStrLt verStrLt_asymm verStrLt_false_trans _
    · rw [Bool.not_eq_true] at hseg
      rw [list_versions_bad_seg index projectArg hseg]
      simp

/-- Closed instance of `list_versions_amended_C6`: the two-row index lists
version `10.0.0`. -/
theorem list_versions_amended_C6_witness :
    ∃ e ∈ list_versions
      [{ project := "ide1", version := "9.0.0", platform := "linux-x64",
         meta_rel_path := "m9", binary_rel_path := "b9", published_ts := 5,
         is_latest := 0, is_valid := 1, invalid_reason := none },
       { project := "ide1", version := "10.0.0", platform := "linux-x64",
         meta_rel_path := "m10", binary_rel_path := "b10", published_ts := 7,
         is_latest := 0, is_valid := 1, invalid_reason := none }]
      "ide1", e.version = "10.0.0" := by
  refine (list_versions_amended_C6.1 _ "ide1" "10.0.0").mpr ⟨by decide, ?_⟩
  refine ⟨{ project := "ide1", version := "10.0.0", platform := "linux-x64",
              meta_rel_path := "m10", binary_rel_path := "b10", published_ts := 7,
              is_latest := 0, is_valid := 1, invalid_reason := none },
    by decide, by decide, rfl, rfl⟩

end ReleasePortal
